import Mathlib

/-!
Shallow embedding of the scrape engine of an OpenLDAP metrics exporter
(`scraper.go`).  Go strings are modelled as lists of characters, Go float64
values as rationals (exact arithmetic; the numeric strings handled by the
program are small decimals), Go `time.Time` Unix timestamps as integers,
and the mutable metric/log state as an explicit event trace.  A Go runtime
panic (out-of-range slice index) is modelled by `Option.none` bubbling up
through the cycle.
-/

abbrev Str := List Char

/-- Embeds Go `strings.Split(s, "#")`: greedy split on every occurrence of
the separator character, always returning at least one (possibly empty)
field. -/
def splitOnHash : Str → List Str
  | [] => [[]]
  | c :: rest =>
    if c = '#' then [] :: splitOnHash rest
    else
      match splitOnHash rest with
      | [] => [[c]]
      | s :: ss => (c :: s) :: ss

def digitVal (c : Char) : Nat := c.toNat - '0'.toNat

/-- Longest prefix of decimal digits together with the remainder. -/
def takeDigits : Str → Str × Str
  | [] => ([], [])
  | c :: cs =>
    if c.isDigit then
      let p := takeDigits cs
      (c :: p.1, p.2)
    else ([], c :: cs)

/-- Embeds `getnum` from Go's `time` package: reads one or two decimal
digits (exactly two when `fixed` is true). -/
def getnum (fixed : Bool) : Str → Option (Nat × Str)
  | [] => none
  | c :: cs =>
    if c.isDigit then
      match cs with
      | c2 :: cs2 =>
        if c2.isDigit then some (digitVal c * 10 + digitVal c2, cs2)
        else if fixed then none
        else some (digitVal c, cs)
      | [] => if fixed then none else some (digitVal c, [])
    else none

/-- Reads exactly four decimal digits (the `stdLongYear` case of Go
`time.Parse`). -/
def atoi4 : Str → Option (Nat × Str)
  | a :: b :: c :: d :: rest =>
    if a.isDigit ∧ b.isDigit ∧ c.isDigit ∧ d.isDigit then
      some (digitVal a * 1000 + digitVal b * 100 + digitVal c * 10 + digitVal d, rest)
    else none
  | _ => none

/-- Embeds the optional-fractional-second case of Go `time.Parse` for the
layout fragment `.999999`: an absent fraction is accepted unchanged, a
present one must be a period or comma followed by one to nine digits. -/
def skipFrac : Str → Option Str
  | [] => some []
  | c :: cs =>
    if c = '.' ∨ c = ',' then
      let p := takeDigits cs
      if 1 ≤ p.1.length ∧ p.1.length ≤ 9 then some p.2 else none
    else some (c :: cs)

def isLeap (y : Nat) : Bool := y % 4 = 0 ∧ (y % 100 ≠ 0 ∨ y % 400 = 0)

def daysInMonth (m y : Nat) : Nat :=
  match m with
  | 1 => 31
  | 2 => if isLeap y then 29 else 28
  | 3 => 31
  | 4 => 30
  | 5 => 31
  | 6 => 30
  | 7 => 31
  | 8 => 31
  | 9 => 30
  | 10 => 31
  | 11 => 30
  | 12 => 31
  | _ => 0

/-- Days from 1970-01-01 to the given (validated) civil date, standard
proleptic-Gregorian day-count algorithm, matching Go `time.Date(..).Unix`
division by 86400. -/
def daysFromCivil (y m d : Nat) : Int :=
  let yi : Int := if m ≤ 2 then (y : Int) - 1 else (y : Int)
  let era : Int := Int.fdiv yi 400
  let yoe : Int := yi - era * 400
  let mp : Int := if m ≤ 2 then (m : Int) + 9 else (m : Int) - 3
  let doy : Int := Int.fdiv (153 * mp + 2) 5 + (d : Int) - 1
  let doe : Int := yoe * 365 + Int.fdiv yoe 4 - Int.fdiv yoe 100 + doy
  era * 146097 + doe - 719468

def epochSeconds (y mo d h mi s : Nat) : Int :=
  daysFromCivil y mo d * 86400 + (h : Int) * 3600 + (mi : Int) * 60 + (s : Int)

/-- Embeds `time.Parse("20060102150405.999999Z", value)` followed by
`.Unix()`: four-digit year, two-digit month/day, one-or-two digit hour,
two-digit minute/second, optional fractional second, literal `Z`, full
consumption of the input, with Go's range validation of each component.
Returns the Unix epoch seconds (the fractional part does not contribute to
`Unix()`). -/
def parseGeneralizedTime (cs : Str) : Option Int :=
  match atoi4 cs with
  | none => none
  | some (y, r1) =>
    match getnum true r1 with
    | none => none
    | some (mo, r2) =>
      match getnum true r2 with
      | none => none
      | some (d, r3) =>
        match getnum false r3 with
        | none => none
        | some (h, r4) =>
          if 24 ≤ h then none
          else
            match getnum true r4 with
            | none => none
            | some (mi, r5) =>
              if 60 ≤ mi then none
              else
                match getnum true r5 with
                | none => none
                | some (s, r6) =>
                  if 60 ≤ s then none
                  else
                    match skipFrac r6 with
                    | none => none
                    | some r7 =>
                      if r7 = ['Z'] then
                        if 1 ≤ mo ∧ mo ≤ 12 ∧ 1 ≤ d ∧ d ≤ daysInMonth mo y then
                          some (epochSeconds y mo d h mi s)
                        else none
                      else none

def digitsToNat (ds : Str) : Nat := ds.foldl (fun a c => a * 10 + digitVal c) 0

def pow10 : Nat → Nat
  | 0 => 1
  | n + 1 => 10 * pow10 n

/-- Reads an optional leading sign; returns whether it was negative and the
remainder. -/
def readSign : Str → Bool × Str
  | [] => (false, [])
  | c :: r => if c = '+' then (false, r) else if c = '-' then (true, r) else (false, c :: r)

/-- Embeds the decimal core of Go `strconv.ParseFloat(val, 64)` exactly
over the rationals: optional sign, digits with an optional fractional
part (at least one digit overall), optional decimal exponent, full
consumption of the input.  The special forms Go additionally accepts
(inf/NaN spellings, hexadecimal floats, digit-group underscores) and
binary rounding to float64 are outside the data handled by this program
and are not modelled. -/
def parseFloat (cs : Str) : Option ℚ :=
  let s1 := readSign cs
  let p1 := takeDigits s1.2
  let fracPart : Str × Str :=
    match p1.2 with
    | [] => ([], [])
    | c :: r => if c = '.' then takeDigits r else ([], c :: r)
  if p1.1.length + fracPart.1.length = 0 then none
  else
    let mAbs : Nat := digitsToNat p1.1 * pow10 fracPart.1.length + digitsToNat fracPart.1
    let m : Int := if s1.1 then -(mAbs : Int) else (mAbs : Int)
    match fracPart.2 with
    | [] => some (mkRat m (pow10 fracPart.1.length))
    | e :: r4 =>
      if e = 'e' ∨ e = 'E' then
        let s2 := readSign r4
        let p2 := takeDigits s2.2
        if p2.1.length = 0 ∨ p2.2 ≠ [] then none
        else
          some
            (if s2.1 then mkRat m (pow10 fracPart.1.length * pow10 (digitsToNat p2.1))
             else mkRat (m * (pow10 (digitsToNat p2.1) : Int)) (pow10 fracPart.1.length))
      else none

/-- Result of `parseContextCSN`.  `crash` models a Go runtime panic
(out-of-range slice index), `err` a non-nil error return carrying the
warning that was logged, `ok` the tuple `(gt, count, sid, mod)`. -/
inductive CSNResult where
  | crash
  | err (warnMsg : Str)
  | ok (gt : Int) (count : ℚ) (sid : Str) (modifier : ℚ)
deriving DecidableEq

def warnGtMsg : Str := "unexpected gt value".toList

def warnCountMsg : Str := "unexpected count value".toList

def warnModMsg : Str := "unexpected mod value".toList

/-- Embeds `parseContextCSN` from `scraper.go`: splits the raw value on
`#`, parses field 0 as generalized time, field 1 as a float, takes field 2
verbatim and parses field 3 as a float, indexing the split exactly as the
Go code does (an out-of-range index is a panic, i.e. `crash`). -/
def parseContextCSN (val : Str) : CSNResult :=
  let valueBuffer := splitOnHash val
  match valueBuffer.get? 0 with
  | none => .crash
  | some f0 =>
    match parseGeneralizedTime f0 with
    | none => .err warnGtMsg
    | some gt =>
      match valueBuffer.get? 1 with
      | none => .crash
      | some f1 =>
        match parseFloat f1 with
        | none => .err warnCountMsg
        | some count =>
          match valueBuffer.get? 2 with
          | none => .crash
          | some sid =>
            match valueBuffer.get? 3 with
            | none => .crash
            | some f3 =>
              match parseFloat f3 with
              | none => .err warnModMsg
              | some m => .ok gt count sid m

/-- A directory entry: a DN and attribute values, as delivered by one
search.  `GetAttributeValue` returns the empty string when the attribute
is absent, as the Go LDAP library does. -/
structure Entry where
  dn : Str
  attrs : List (Str × Str)
deriving DecidableEq

def Entry.GetAttributeValue (e : Entry) (a : Str) : Str :=
  match e.attrs.find? (fun p => p.1 = a) with
  | some p => p.2
  | none => []

/-- The three `setData` callbacks a query descriptor can carry. -/
inductive DataFun where
  | setValue
  | setReplicationValue
  | setReplicationDelayValue
deriving DecidableEq

/-- Embeds the `query` struct: search base, filter, attribute, target
metric (identified by name), parsing callback, and the cached
`RepolicateResult` float (Go zero value 0). -/
structure Query where
  baseDN : Str
  searchFilter : Str
  searchAttr : Str
  metric : Str
  setData : DataFun
  RepolicateResult : ℚ := 0
deriving DecidableEq

/-- Observable effects of one scrape cycle, in order: metric writes,
log output, and the directory operations performed.  Events produced
while processing catalog entry `i` carry that index. -/
inductive Event where
  | dial (master : Bool) (addr : Str)
  | bindCall (master : Bool) (user pass : Str)
  | searchCall (qIdx : Nat) (base filter attr : Str)
  | masterSearchCall (qIdx : Nat) (base filter attr : Str)
  | queryWarn (qIdx : Nat) (filter base : Str)
  | parseWarn (qIdx : Nat) (msg : Str)
  | errorLog (msg : Str)
  | metricSet (qIdx : Nat) (metric : Str) (labels : List Str) (value : ℚ)
deriving DecidableEq

/-- The directory servers' behaviour for one cycle: dial/bind outcomes and
the result of the subtree search issued for catalog entry `i` (`none`
models a search error). -/
structure World where
  dialOk : Bool
  bind : Str → Str → Bool
  search : Nat → Option (List Entry)
  masterDialOk : Bool
  masterBind : Str → Str → Bool
  masterSearch : Nat → Option (List Entry)

/-- Embeds the `Scraper` configuration struct (timer and logger handles,
which carry no scrape-relevant state, are omitted). -/
structure Scraper where
  Net : Str
  Addr : Str
  User : Str
  Pass : Str
  LdapSync : List Str
  Sync : List Str
  LdapSyncTimeDetal : Bool
  LdapSyncMasterAddr : Str

def baseDN : Str := "cn=Monitor".toList

def opsBaseDN : Str := "cn=Operations,cn=Monitor".toList

def monitorCounterObject : Str := "monitorCounterObject".toList

def monitorCounter : Str := "monitorCounter".toList

def monitoredObject : Str := "monitoredObject".toList

def monitoredInfo : Str := "monitoredInfo".toList

def monitorOperation : Str := "monitorOperation".toList

def monitorOpCompleted : Str := "monitorOpCompleted".toList

def monitorReplicationFilter : Str := "contextCSN".toList

def monitoredObjectGauge : Str := "openldap_monitored_object".toList

def monitorCounterObjectGauge : Str := "openldap_monitor_counter_object".toList

def monitorOperationGauge : Str := "openldap_monitor_operation".toList

def monitorReplicationGauge : Str := "openldap_monitor_replication".toList

/-- Embeds `objectClass(name)`, i.e. `fmt.Sprintf("(objectClass=%v)", name)`. -/
def objectClassFilter (name : Str) : Str :=
  "(objectClass=".toList ++ name ++ ")".toList

def labelGt : Str := "gt".toList

def labelCount : Str := "count".toList

def labelMod : Str := "mod".toList

def labelDelay : Str := "delay".toList

def labelOk : Str := "ok".toList

def labelFail : Str := "fail".toList

def starFilter : Str := "*".toList

def dialFailMsg : Str := "dial failed".toList

def bindFailMsg : Str := "bind failed".toList

def dialMasterFailMsg : Str := "dial master node failed".toList

def bindMasterFailMsg : Str := "bind master failed".toList

def queryMasterCtxMsg : Str := "query master context error".toList

def emptyMasterCtxMsg : Str := "get master context csn error ,result empty".toList

def timeParserErrMsg : Str := "time parser error".toList

/-- Embeds `setValue`: for each entry, read the target attribute, skip
silently when absent or non-numeric, otherwise set the metric point
labeled by the entry's DN. -/
def setValue (i : Nat) (q : Query) : List Entry → List Event × Query
  | [] => ([], q)
  | e :: es =>
    let val := e.GetAttributeValue q.searchAttr
    if val = [] then setValue i q es
    else
      match parseFloat val with
      | none => setValue i q es
      | some num =>
        let rest := setValue i q es
        (Event.metricSet i q.metric [e.dn] num :: rest.1, rest.2)

/-- Embeds `setReplicationValue`: for each entry, decode the token with
`parseContextCSN`; a non-nil error abandons the entry (only the warning
remains), a success caches the timestamp in `RepolicateResult` and writes
the three labeled points; a panic aborts everything (`none`). -/
def setReplicationValue (i : Nat) (q : Query) : List Entry → Option (List Event × Query)
  | [] => some ([], q)
  | e :: es =>
    let val := e.GetAttributeValue q.searchAttr
    if val = [] then setReplicationValue i q es
    else
      match parseContextCSN val with
      | .crash => none
      | .err m =>
        match setReplicationValue i q es with
        | none => none
        | some rest => some (Event.parseWarn i m :: rest.1, rest.2)
      | .ok gt count sid modv =>
        match setReplicationValue i { q with RepolicateResult := (gt : ℚ) } es with
        | none => none
        | some rest =>
          some (Event.metricSet i q.metric [sid, labelGt] (gt : ℚ) ::
                Event.metricSet i q.metric [sid, labelCount] count ::
                Event.metricSet i q.metric [sid, labelMod] modv :: rest.1, rest.2)

/-- Embeds `setReplicationDelayValue` (present in the source but never
installed in any query descriptor): publishes only the timestamp point,
indexing split field 2 unguarded exactly as the Go code does. -/
def setReplicationDelayValue (i : Nat) (q : Query) : List Entry → Option (List Event × Query)
  | [] => some ([], q)
  | e :: es =>
    let val := e.GetAttributeValue q.searchAttr
    if val = [] then setReplicationDelayValue i q es
    else
      let valueBuffer := splitOnHash val
      match valueBuffer.get? 0 with
      | none => none
      | some f0 =>
        match parseGeneralizedTime f0 with
        | none =>
          match setReplicationDelayValue i q es with
          | none => none
          | some rest => some (Event.parseWarn i warnGtMsg :: rest.1, rest.2)
        | some gt =>
          match valueBuffer.get? 2 with
          | none => none
          | some sid =>
            match setReplicationDelayValue i q es with
            | none => none
            | some rest =>
              some (Event.metricSet i q.metric [sid, labelGt] (gt : ℚ) :: rest.1, rest.2)

def applySetData : DataFun → Nat → Query → List Entry → Option (List Event × Query)
  | .setValue, i, q, es => some (setValue i q es)
  | .setReplicationValue, i, q, es => setReplicationValue i q es
  | .setReplicationDelayValue, i, q, es => setReplicationDelayValue i q es

/-- The static query catalog (`queries` in the source), verbatim: note the
fourth element repeats the third. -/
def queries : List Query :=
  [ { baseDN := baseDN
      searchFilter := objectClassFilter monitoredObject
      searchAttr := monitoredInfo
      metric := monitoredObjectGauge
      setData := .setValue },
    { baseDN := baseDN
      searchFilter := objectClassFilter monitorCounterObject
      searchAttr := monitorCounter
      metric := monitorCounterObjectGauge
      setData := .setValue },
    { baseDN := opsBaseDN
      searchFilter := objectClassFilter monitorOperation
      searchAttr := monitorOpCompleted
      metric := monitorOperationGauge
      setData := .setValue },
    { baseDN := opsBaseDN
      searchFilter := objectClassFilter monitorOperation
      searchAttr := monitorOpCompleted
      metric := monitorOperationGauge
      setData := .setValue } ]

/-- The descriptor `addReplicationQueries` appends for one configured
peer base DN. -/
def mkReplicationQuery (peer : Str) : Query :=
  { baseDN := peer
    searchFilter := objectClassFilter starFilter
    searchAttr := monitorReplicationFilter
    metric := monitorReplicationGauge
    setData := .setReplicationValue }

/-- Embeds `Scraper.addReplicationQueries`: appends one replication
descriptor per entry of `Sync` to the given catalog value. -/
def addReplicationQueries (s : Scraper) (qs : List Query) : List Query :=
  qs ++ s.Sync.map mkReplicationQuery

/-- Number of replication descriptors for the peer `p` in a catalog. -/
def replCount (qs : List Query) (p : Str) : Nat :=
  (qs.filter (fun q => q.setData = DataFun.setReplicationValue ∧ q.baseDN = p)).length

/-- The `scrapeQuery` call for catalog entry `i` plus the surrounding
error handling in `scrape`'s loop: a search error yields the logged
warning and `ret = false`; otherwise the query's `setData` runs (`none`
propagates a panic). -/
def queryPhase (w : World) (i : Nat) (q : Query) : Option (Bool × List Event × Query) :=
  let tr0 := [Event.searchCall i q.baseDN q.searchFilter q.searchAttr]
  match w.search i with
  | none => some (false, tr0 ++ [Event.queryWarn i q.searchFilter q.baseDN], q)
  | some es =>
    match applySetData q.setData i q es with
    | none => none
    | some r => some (true, tr0 ++ r.1, r.2)

/-- Outcome of the replication-delay cross-check block for one catalog
entry: `crash` is a panic, `abort` makes `scrape` return false
immediately, `next` continues with the given extra events. -/
inductive CrossResult where
  | crash
  | abort (tr : List Event)
  | next (tr : List Event)
deriving DecidableEq

/-- Embeds the `q.searchAttr == monitorReplicationFilter` block of
`scrape`: when delay checking is enabled, dial and (unconditionally) bind
the primary, search it, require a non-empty result, decode the first
entry's token (timestamp and server id only) and publish the delay point
against the descriptor's cached `RepolicateResult`. -/
def crossCheck (s : Scraper) (w : World) (i : Nat) (q : Query) : CrossResult :=
  if q.searchAttr = monitorReplicationFilter then
    if s.LdapSyncTimeDetal then
      let tr2 := [Event.dial true s.LdapSyncMasterAddr]
      if w.masterDialOk then
        let tr3 := tr2 ++ [Event.bindCall true s.User s.Pass]
        if w.masterBind s.User s.Pass then
          let tr4 := tr3 ++ [Event.masterSearchCall i q.baseDN q.searchFilter q.searchAttr]
          match w.masterSearch i with
          | none => .abort (tr4 ++ [Event.errorLog queryMasterCtxMsg])
          | some [] => .abort (tr4 ++ [Event.errorLog emptyMasterCtxMsg])
          | some (e :: _) =>
            let val := e.GetAttributeValue q.searchAttr
            if val = [] then .next tr4
            else
              let valueBuffer := splitOnHash val
              match valueBuffer.get? 0 with
              | none => .crash
              | some f0 =>
                match parseGeneralizedTime f0 with
                | none => .abort (tr4 ++ [Event.errorLog timeParserErrMsg])
                | some gtM =>
                  match valueBuffer.get? 2 with
                  | none => .crash
                  | some sid =>
                    .next (tr4 ++
                      [Event.metricSet i q.metric [sid, labelDelay]
                        ((gtM : ℚ) - q.RepolicateResult)])
        else .abort (tr3 ++ [Event.errorLog bindMasterFailMsg, Event.errorLog queryMasterCtxMsg])
      else .abort (tr2 ++ [Event.errorLog dialMasterFailMsg, Event.errorLog queryMasterCtxMsg])
    else .next []
  else .next []

/-- Result of processing one catalog entry inside `scrape`'s loop. -/
inductive StepResult where
  | crash
  | abort (tr : List Event) (q : Query)
  | next (searchOk : Bool) (tr : List Event) (q : Query)
deriving DecidableEq

/-- One iteration of `scrape`'s loop over the catalog: run the query, then
the replication cross-check on the (possibly updated) descriptor. -/
def scrapeStep (s : Scraper) (w : World) (i : Nat) (q : Query) : StepResult :=
  match queryPhase w i q with
  | none => .crash
  | some r =>
    match crossCheck s w i r.2.2 with
    | .crash => .crash
    | .abort tr2 => .abort (r.2.1 ++ tr2) r.2.2
    | .next tr2 => .next r.1 (r.2.1 ++ tr2) r.2.2

/-- The loop of `scrape` over the remaining catalog entries, carrying the
running `ret` flag, the trace so far, and the already-processed
descriptors (reversed). -/
def scrapeLoop (s : Scraper) (w : World) :
    Nat → List Query → Bool → List Event → List Query →
    Option (Bool × List Event × List Query)
  | _, [], ret, tr, acc => some (ret, tr, acc.reverse)
  | i, q :: rest, ret, tr, acc =>
    match scrapeStep s w i q with
    | .crash => none
    | .abort tr2 q2 => some (false, tr ++ tr2, acc.reverse ++ q2 :: rest)
    | .next okq tr2 q2 => scrapeLoop s w (i + 1) rest (ret && okq) (tr ++ tr2) (q2 :: acc)

/-- Embeds `Scraper.scrape`: dial, bind only when both credentials are
non-empty, then the loop over the catalog.  Returns the success flag, the
event trace and the updated catalog; `none` models a panic. -/
def scrape (s : Scraper) (w : World) (qs : List Query) :
    Option (Bool × List Event × List Query) :=
  let tr0 := [Event.dial false s.Addr]
  if w.dialOk then
    if s.User ≠ [] ∧ s.Pass ≠ [] then
      let tr1 := tr0 ++ [Event.bindCall false s.User s.Pass]
      if w.bind s.User s.Pass then scrapeLoop s w 0 qs true tr1 []
      else some (false, tr1 ++ [Event.errorLog bindFailMsg], qs)
    else scrapeLoop s w 0 qs true tr0 []
  else some (false, tr0 ++ [Event.errorLog dialFailMsg], qs)

/-- A full-cycle event: a scrape event or the single scrape-counter
increment. -/
inductive CycleEvent where
  | ev (e : Event)
  | inc (result : Str)
deriving DecidableEq

/-- Embeds `Scraper.runOnce`: run one scrape and increment the outcome
counter exactly once, with label `ok` on success and `fail` otherwise. -/
def runOnce (s : Scraper) (w : World) (qs : List Query) :
    Option (List CycleEvent × List Query) :=
  match scrape s w qs with
  | none => none
  | some r =>
    some (r.2.1.map CycleEvent.ev ++
          [CycleEvent.inc (if r.1 then labelOk else labelFail)], r.2.2)


def csnEntryC1 : Entry :=
  { dn := "cn=c1".toList
    attrs := [(monitorReplicationFilter, "20211001120000Z#abc#node1#2".toList)] }

def replQuery0 : Query := mkReplicationQuery ("dc=example,dc=org".toList)

/-- A scraper configuration with empty credentials and delay checking
disabled. -/
def scraperPlain : Scraper :=
  { Net := "tcp".toList
    Addr := "ldap.example:389".toList
    User := []
    Pass := []
    LdapSync := []
    Sync := ["dc=example,dc=org".toList]
    LdapSyncTimeDetal := false
    LdapSyncMasterAddr := "master.example:389".toList }

def worldC1 : World :=
  { dialOk := true
    bind := fun _ _ => true
    search := fun _ => some [csnEntryC1]
    masterDialOk := true
    masterBind := fun _ _ => true
    masterSearch := fun _ => some [] }

def csnEntryC2 : Entry :=
  { dn := "cn=c2".toList
    attrs := [(monitorReplicationFilter, "20211001120000Z#5#node1".toList)] }

def worldC2 : World :=
  { dialOk := true
    bind := fun _ _ => true
    search := fun _ => some [csnEntryC2]
    masterDialOk := true
    masterBind := fun _ _ => true
    masterSearch := fun _ => some [] }

def StepResult.isAbort : StepResult → Bool
  | .abort _ _ => true
  | _ => false

/-- The condition under which the replication-delay cross-check block of
`scrape` returns false for the whole cycle: master dial, master bind, or
master search failure, an empty master result, or a master token whose
timestamp does not parse (an absent attribute merely skips the check). -/
def masterCheckAborts (s : Scraper) (w : World) (i : Nat) (q : Query) : Bool :=
  if q.searchAttr = monitorReplicationFilter then
    if s.LdapSyncTimeDetal then
      if w.masterDialOk then
        if w.masterBind s.User s.Pass then
          match w.masterSearch i with
          | none => true
          | some [] => true
          | some (e :: _) =>
            let val := e.GetAttributeValue q.searchAttr
            if val = [] then false
            else
              match (splitOnHash val).get? 0 with
              | none => false
              | some f0 =>
                match parseGeneralizedTime f0 with
                | none => true
                | some _ => false
        else true
      else true
    else false
  else false

def worldC3 : World :=
  { dialOk := true
    bind := fun _ _ => true
    search := fun _ => none
    masterDialOk := true
    masterBind := fun _ _ => true
    masterSearch := fun _ => some [] }

/-- The catalog index carried by an event, when it has one. -/
def evIdx : Event → Option Nat
  | .searchCall i _ _ _ => some i
  | .masterSearchCall i _ _ _ => some i
  | .queryWarn i _ _ => some i
  | .parseWarn i _ => some i
  | .metricSet i _ _ _ => some i
  | _ => none

def isIncEvent : CycleEvent → Bool
  | .inc _ => true
  | .ev _ => false

def traceC9 : List Event :=
  [Event.dial false scraperPlain.Addr,
   Event.searchCall 0 baseDN (objectClassFilter monitoredObject) monitoredInfo,
   Event.queryWarn 0 (objectClassFilter monitoredObject) baseDN,
   Event.searchCall 1 baseDN (objectClassFilter monitorCounterObject) monitorCounter,
   Event.queryWarn 1 (objectClassFilter monitorCounterObject) baseDN,
   Event.searchCall 2 opsBaseDN (objectClassFilter monitorOperation) monitorOpCompleted,
   Event.queryWarn 2 (objectClassFilter monitorOperation) opsBaseDN,
   Event.searchCall 3 opsBaseDN (objectClassFilter monitorOperation) monitorOpCompleted,
   Event.queryWarn 3 (objectClassFilter monitorOperation) opsBaseDN]

def entryLocalC5 : Entry :=
  { dn := "cn=local".toList
    attrs := [(monitorReplicationFilter, "19700101001640Z#1#node1#1".toList)] }

def entryMasterC5 : Entry :=
  { dn := "cn=master".toList
    attrs := [(monitorReplicationFilter, "19700101001650Z#1#node1#1".toList)] }

def scraperC5 : Scraper :=
  { Net := "tcp".toList
    Addr := "ldap.example:389".toList
    User := []
    Pass := []
    LdapSync := []
    Sync := ["dc=example,dc=org".toList]
    LdapSyncTimeDetal := true
    LdapSyncMasterAddr := "master.example:389".toList }

def worldC5 : World :=
  { dialOk := true
    bind := fun _ _ => true
    search := fun _ => some [entryLocalC5]
    masterDialOk := true
    masterBind := fun _ _ => true
    masterSearch := fun _ => some [entryMasterC5] }

/-- The descriptor after the local pass of the C5 witness cycle cached the
local epoch 1000. -/
def queryC5 : Query := { replQuery0 with RepolicateResult := 1000 }

/-- The query-phase result of the C5 witness cycle: local token parsed,
three points published, epoch 1000 cached. -/
def resultC5 : Bool × List Event × Query :=
  (true,
   [Event.searchCall 0 replQuery0.baseDN replQuery0.searchFilter replQuery0.searchAttr,
    Event.metricSet 0 replQuery0.metric ["node1".toList, labelGt] 1000,
    Event.metricSet 0 replQuery0.metric ["node1".toList, labelCount] 1,
    Event.metricSet 0 replQuery0.metric ["node1".toList, labelMod] 1],
   queryC5)

def worldC10 : World :=
  { dialOk := true
    bind := fun _ _ => true
    search := fun _ => some []
    masterDialOk := true
    masterBind := fun _ _ => false
    masterSearch := fun _ => some [] }

theorem splitOnHash_no_hash {l : Str} (h : '#' ∉ l) : splitOnHash l = [l] := by
  induction l with
  | nil => rfl
  | cons c cs ih =>
    have hc : ¬ c = '#' := fun hEq => h (hEq ▸ List.mem_cons_self c cs)
    have hcs : '#' ∉ cs := fun hm => h (List.mem_cons_of_mem c hm)
    simp [splitOnHash, hc, ih hcs]

theorem splitOnHash_append {l : Str} (r : Str) (h : '#' ∉ l) :
    splitOnHash (l ++ '#' :: r) = l :: splitOnHash r := by
  induction l with
  | nil => simp [splitOnHash]
  | cons c cs ih =>
    have hc : ¬ c = '#' := fun hEq => h (hEq ▸ List.mem_cons_self c cs)
    have hcs : '#' ∉ cs := fun hm => h (List.mem_cons_of_mem c hm)
    simp [splitOnHash, hc, ih hcs]

theorem takeDigits_append (cs : Str) : (takeDigits cs).1 ++ (takeDigits cs).2 = cs := by
  induction cs with
  | nil => rfl
  | cons c cs ih =>
    by_cases hc : c.isDigit
    · simp [takeDigits, hc, ih]
    · simp [takeDigits, hc]

theorem takeDigits_mem {cs : Str} {c : Char} (h : c ∈ (takeDigits cs).1) :
    c.isDigit = true := by
  induction cs with
  | nil => simp [takeDigits] at h
  | cons d cs ih =>
    by_cases hd : d.isDigit
    · simp [takeDigits, hd] at h
      rcases h with h | h
      · exact h ▸ hd
      · exact ih h
    · simp [takeDigits, hd] at h

theorem getnum_consumed {fixed : Bool} {cs rest : Str} {v : Nat}
    (h : getnum fixed cs = some (v, rest)) :
    ∃ pre, cs = pre ++ rest ∧ ∀ c ∈ pre, c.isDigit = true := by
  match cs with
  | [] => simp [getnum] at h
  | c :: cs' =>
    by_cases hc : c.isDigit
    · match cs' with
      | [] =>
        refine ⟨[c], ?_, ?_⟩
        · cases fixed with
          | true => simp [getnum, hc] at h
          | false =>
            simp [getnum, hc] at h
            simp [← h.2]
        · intro x hx
          simp at hx
          exact hx ▸ hc
      | c2 :: cs2 =>
        by_cases hc2 : c2.isDigit
        · simp [getnum, hc, hc2] at h
          refine ⟨[c, c2], by simp [← h.2], ?_⟩
          intro x hx
          simp at hx
          rcases hx with hx | hx
          · exact hx ▸ hc
          · exact hx ▸ hc2
        · cases fixed with
          | true => simp [getnum, hc, hc2] at h
          | false =>
            simp [getnum, hc, hc2] at h
            refine ⟨[c], by simp [← h.2], ?_⟩
            intro x hx
            simp at hx
            exact hx ▸ hc
    · simp [getnum, hc] at h

theorem atoi4_consumed {cs rest : Str} {v : Nat} (h : atoi4 cs = some (v, rest)) :
    ∃ pre, cs = pre ++ rest ∧ ∀ c ∈ pre, c.isDigit = true := by
  match cs with
  | [] => simp [atoi4] at h
  | [a] => simp [atoi4] at h
  | [a, b] => simp [atoi4] at h
  | [a, b, c] => simp [atoi4] at h
  | a :: b :: c :: d :: cs' =>
    by_cases hd : a.isDigit ∧ b.isDigit ∧ c.isDigit ∧ d.isDigit
    · simp [atoi4, hd.1, hd.2.1, hd.2.2.1, hd.2.2.2] at h
      refine ⟨[a, b, c, d], by simp [← h.2], ?_⟩
      intro x hx
      simp at hx
      rcases hx with hx | hx | hx | hx
      · exact hx ▸ hd.1
      · exact hx ▸ hd.2.1
      · exact hx ▸ hd.2.2.1
      · exact hx ▸ hd.2.2.2
    · rw [atoi4, if_neg ?_] at h
      · simp at h
      · simpa using hd

theorem skipFrac_consumed {cs rest : Str} (h : skipFrac cs = some rest) :
    ∃ pre, cs = pre ++ rest ∧ ∀ c ∈ pre, (c.isDigit = true ∨ c = '.' ∨ c = ',') := by
  match cs with
  | [] =>
    simp [skipFrac] at h
    exact ⟨[], by simp [← h], by simp⟩
  | c :: cs' =>
    by_cases hc : c = '.' ∨ c = ','
    · simp only [skipFrac, if_pos hc] at h
      by_cases hl : 1 ≤ (takeDigits cs').1.length ∧ (takeDigits cs').1.length ≤ 9
      · rw [if_pos hl] at h
        injection h with h
        refine ⟨c :: (takeDigits cs').1, ?_, ?_⟩
        · rw [← h]
          simp [takeDigits_append cs']
        · intro x hx
          simp at hx
          rcases hx with hx | hx
          · right; exact hx ▸ hc
          · left; exact takeDigits_mem hx
      · rw [if_neg hl] at h
        exact absurd h (by simp)
    · simp only [skipFrac, if_neg hc] at h
      injection h with h
      exact ⟨[], by simp [← h], by simp⟩

theorem readSign_consumed (cs : Str) :
    ∃ pre, cs = pre ++ (readSign cs).2 ∧ ∀ c ∈ pre, (c = '+' ∨ c = '-') := by
  match cs with
  | [] => exact ⟨[], rfl, by simp⟩
  | c :: r =>
    by_cases hp : c = '+'
    · refine ⟨[c], ?_, ?_⟩
      · simp [readSign, hp]
      · intro x hx; simp at hx; left; exact hx ▸ hp
    · by_cases hm : c = '-'
      · refine ⟨[c], ?_, ?_⟩
        · simp [readSign, hp, hm]
        · intro x hx; simp at hx; right; exact hx ▸ hm
      · exact ⟨[], by simp [readSign, hp, hm], by simp⟩

theorem parseGeneralizedTime_no_hash {cs : Str} {g : Int}
    (hp : parseGeneralizedTime cs = some g) : '#' ∉ cs := by
  unfold parseGeneralizedTime at hp
  split at hp
  · exact absurd hp (by simp)
  next y r1 h0 =>
  split at hp
  · exact absurd hp (by simp)
  next mo r2 h1 =>
  split at hp
  · exact absurd hp (by simp)
  next d r3 h2 =>
  split at hp
  · exact absurd hp (by simp)
  next hh r4 h3 =>
  split at hp
  · exact absurd hp (by simp)
  split at hp
  · exact absurd hp (by simp)
  next mi r5 h4 =>
  split at hp
  · exact absurd hp (by simp)
  split at hp
  · exact absurd hp (by simp)
  next se r6 h5 =>
  split at hp
  · exact absurd hp (by simp)
  split at hp
  · exact absurd hp (by simp)
  next r7 h6 =>
  split at hp
  case isFalse => exact absurd hp (by simp)
  next hz =>
  obtain ⟨q0, he0, hd0⟩ := atoi4_consumed h0
  obtain ⟨q1, he1, hd1⟩ := getnum_consumed h1
  obtain ⟨q2, he2, hd2⟩ := getnum_consumed h2
  obtain ⟨q3, he3, hd3⟩ := getnum_consumed h3
  obtain ⟨q4, he4, hd4⟩ := getnum_consumed h4
  obtain ⟨q5, he5, hd5⟩ := getnum_consumed h5
  obtain ⟨q6, he6, hd6⟩ := skipFrac_consumed h6
  intro hm
  rw [he0, he1, he2, he3, he4, he5, he6, hz] at hm
  simp only [List.mem_append, List.mem_cons, List.mem_singleton] at hm
  rcases hm with hm | hm | hm | hm | hm | hm | hm | hm | hm
  · exact absurd (hd0 _ hm) (by decide)
  · exact absurd (hd1 _ hm) (by decide)
  · exact absurd (hd2 _ hm) (by decide)
  · exact absurd (hd3 _ hm) (by decide)
  · exact absurd (hd4 _ hm) (by decide)
  · exact absurd (hd5 _ hm) (by decide)
  · rcases hd6 _ hm with hq | hq | hq
    · exact absurd hq (by decide)
    · exact absurd hq (by decide)
    · exact absurd hq (by decide)
  · exact absurd hm (by decide)
  · exact absurd hm (by simp)

theorem parseFloat_no_hash {cs : Str} {q : ℚ} (hp : parseFloat cs = some q) : '#' ∉ cs := by
  obtain ⟨pre0, he0, hs0⟩ := readSign_consumed cs
  have hip := takeDigits_append (readSign cs).2
  simp only [parseFloat] at hp
  split at hp
  · exact absurd hp (by simp)
  cases hr : (takeDigits (readSign cs).2).2 with
  | nil =>
    intro hm
    rw [he0, ← hip, hr, List.append_nil] at hm
    simp only [List.mem_append] at hm
    rcases hm with hm | hm
    · rcases hs0 _ hm with hq2 | hq2 <;> exact absurd hq2 (by decide)
    · exact absurd (takeDigits_mem hm) (by decide)
  | cons c r =>
    simp only [hr] at hp
    by_cases hc : c = '.'
    · subst hc
      rw [if_pos rfl] at hp
      have hfp := takeDigits_append r
      cases hfr : (takeDigits r).2 with
      | nil =>
        intro hm
        rw [he0, ← hip, hr, ← hfp, hfr, List.append_nil] at hm
        simp only [List.mem_append, List.mem_cons] at hm
        rcases hm with hm | hm | hm | hm
        · rcases hs0 _ hm with hq2 | hq2 <;> exact absurd hq2 (by decide)
        · exact absurd (takeDigits_mem hm) (by decide)
        · exact absurd hm (by decide)
        · exact absurd (takeDigits_mem hm) (by decide)
      | cons e r4 =>
        simp only [hfr] at hp
        by_cases he : e = 'e' ∨ e = 'E'
        · rw [if_pos he] at hp
          split at hp
          · exact absurd hp (by simp)
          next hcond =>
          rw [not_or, not_not] at hcond
          obtain ⟨pre2, he2, hs2⟩ := readSign_consumed r4
          have hed := takeDigits_append (readSign r4).2
          rw [hcond.2, List.append_nil] at hed
          intro hm
          rw [he0, ← hip, hr, ← hfp, hfr, he2, ← hed] at hm
          simp only [List.mem_append, List.mem_cons] at hm
          rcases hm with hm | hm | hm | hm | hm | hm | hm
          · rcases hs0 _ hm with hq2 | hq2 <;> exact absurd hq2 (by decide)
          · exact absurd (takeDigits_mem hm) (by decide)
          · exact absurd hm (by decide)
          · exact absurd (takeDigits_mem hm) (by decide)
          · rcases he with he | he <;> rw [← hm] at he <;> exact absurd he (by decide)
          · rcases hs2 _ hm with hq2 | hq2 <;> exact absurd hq2 (by decide)
          · exact absurd (takeDigits_mem hm) (by decide)
        · rw [if_neg he] at hp
          exact absurd hp (by simp)
    · simp only [if_neg hc] at hp
      by_cases he : c = 'e' ∨ c = 'E'
      · rw [if_pos he] at hp
        split at hp
        · exact absurd hp (by simp)
        next hcond =>
        rw [not_or, not_not] at hcond
        obtain ⟨pre2, he2, hs2⟩ := readSign_consumed r
        have hed := takeDigits_append (readSign r).2
        rw [hcond.2, List.append_nil] at hed
        intro hm
        rw [he0, ← hip, hr, he2, ← hed] at hm
        simp only [List.mem_append, List.mem_cons] at hm
        rcases hm with hm | hm | hm | hm | hm
        · rcases hs0 _ hm with hq2 | hq2 <;> exact absurd hq2 (by decide)
        · exact absurd (takeDigits_mem hm) (by decide)
        · rcases he with he | he <;> rw [← hm] at he <;> exact absurd he (by decide)
        · rcases hs2 _ hm with hq2 | hq2 <;> exact absurd hq2 (by decide)
        · exact absurd (takeDigits_mem hm) (by decide)
      · rw [if_neg he] at hp
        exact absurd hp (by simp)

/-- C7: for every token of the form `T#C#S#M` whose first field matches the
generalized-time format and whose second and fourth fields parse as
numbers, `parseContextCSN` decodes it to `(epoch(T), float(C), S,
float(M))` with no error; the third field is taken verbatim (any hash-free
string, no validation). -/
theorem c7_valid_token_decodes (T C S M : Str) (g : Int) (c m : ℚ)
    (hT : parseGeneralizedTime T = some g)
    (hC : parseFloat C = some c)
    (hM : parseFloat M = some m)
    (hS : '#' ∉ S) :
    parseContextCSN (T ++ '#' :: (C ++ '#' :: (S ++ '#' :: M))) = CSNResult.ok g c S m := by
  have hTn := parseGeneralizedTime_no_hash hT
  have hCn := parseFloat_no_hash hC
  have hMn := parseFloat_no_hash hM
  unfold parseContextCSN
  rw [splitOnHash_append _ hTn, splitOnHash_append _ hCn, splitOnHash_append _ hS,
    splitOnHash_no_hash hMn]
  simp [hT, hC, hM]

/-- Witness for c7_valid_token_decodes: the token
`20211001120000.123456Z#5#node1#2` decodes to the epoch of
2021-10-01T12:00:00Z with count 5, sid `node1`, mod 2. -/
theorem c7_witness :
    parseContextCSN ("20211001120000.123456Z#5#node1#2".toList) =
      CSNResult.ok 1633089600 5 ("node1".toList) 2 := by
  have hs : "20211001120000.123456Z#5#node1#2".toList =
      ("20211001120000.123456Z".toList ++ '#' :: ("5".toList ++ '#' ::
        ("node1".toList ++ '#' :: "2".toList))) := by decide
  rw [hs]
  exact c7_valid_token_decodes ("20211001120000.123456Z".toList) ("5".toList)
    ("node1".toList) ("2".toList) 1633089600 5 2 (by decide) (by decide) (by decide)
    (by decide)

/-- C1 counterexample: for an entry whose token is
`20211001120000Z#abc#node1#2` (valid timestamp, non-numeric count field),
the replication parser publishes no metric point at all — in particular
not the timestamp-derived `gt` point the claim asserts — and produces only
the count warning, leaving the descriptor unchanged. -/
theorem c1_counterexample :
    setReplicationValue 0 replQuery0 [csnEntryC1] =
      some ([Event.parseWarn 0 warnCountMsg], replQuery0) := by decide

/-- C1 (amended): when a replication token's first field parses as
generalized time but a later field fails (any `parseContextCSN` error),
the cycle publishes no metric point for that entry — not even the
timestamp point — logs the warning, leaves the descriptor cache untouched,
and the cycle is not failed; the three points are only published together
after the whole token decodes. -/
theorem c1_amended_no_partial_publish (s : Scraper) (w : World) (q : Query) (e : Entry)
    (msg : Str)
    (hsd : q.setData = DataFun.setReplicationValue)
    (hval : e.GetAttributeValue q.searchAttr ≠ [])
    (hcsn : parseContextCSN (e.GetAttributeValue q.searchAttr) = CSNResult.err msg)
    (hdelay : s.LdapSyncTimeDetal = false)
    (hdial : w.dialOk = true)
    (huser : s.User = [])
    (hsearch : w.search 0 = some [e]) :
    scrape s w [q] =
      some (true,
        [Event.dial false s.Addr,
         Event.searchCall 0 q.baseDN q.searchFilter q.searchAttr,
         Event.parseWarn 0 msg], [q]) := by
  have hsrv : setReplicationValue 0 q [e] = some ([Event.parseWarn 0 msg], q) := by
    unfold setReplicationValue
    rw [if_neg hval, hcsn]
    rfl
  have hcc : crossCheck s w 0 q = CrossResult.next [] := by
    unfold crossCheck
    rw [hdelay]
    split
    · simp
    · rfl
  simp [scrape, hdial, huser, scrapeLoop, scrapeStep, queryPhase, hsearch, applySetData,
    hsd, hsrv, hcc]

/-- Witness for c1_amended_no_partial_publish: a full cycle over the
single replication query whose entry holds `20211001120000Z#abc#node1#2`
succeeds, logs the count warning, and publishes nothing. -/
theorem c1_witness :
    scrape scraperPlain worldC1 [replQuery0] =
      some (true,
        [Event.dial false scraperPlain.Addr,
         Event.searchCall 0 replQuery0.baseDN replQuery0.searchFilter replQuery0.searchAttr,
         Event.parseWarn 0 warnCountMsg], [replQuery0]) :=
  c1_amended_no_partial_publish scraperPlain worldC1 replQuery0 csnEntryC1 warnCountMsg
    (by decide) (by decide) (by decide) rfl rfl rfl rfl

/-- C2 (code bug): a replication token whose first field parses as
generalized time but which has fewer than four `#`-separated fields makes
`parseContextCSN` index the split slice out of range — a runtime panic
(process crash), not the logged-warning-and-skip behaviour the claim
describes.  The panic propagates through `setReplicationValue` and kills
the whole cycle. -/
theorem c2_short_token_panics :
    parseContextCSN ("20211001120000Z#5#node1".toList) = CSNResult.crash ∧
    parseContextCSN ("20211001120000Z".toList) = CSNResult.crash ∧
    scrape scraperPlain worldC2 [replQuery0] = none := by
  refine ⟨by decide, by decide, by decide⟩

theorem setValue_query : ∀ (es : List Entry) (i : Nat) (q : Query), (setValue i q es).2 = q
  | [], _, _ => rfl
  | e :: es, i, q => by
    unfold setValue
    by_cases hv : e.GetAttributeValue q.searchAttr = []
    · rw [if_pos hv]; exact setValue_query es i q
    · rw [if_neg hv]
      cases hp : parseFloat (e.GetAttributeValue q.searchAttr) with
      | none => simp only [hp]; exact setValue_query es i q
      | some v => simp only [hp]; exact setValue_query es i q

theorem setReplicationValue_searchAttr :
    ∀ (es : List Entry) (i : Nat) (q : Query) (r : List Event × Query),
      setReplicationValue i q es = some r → r.2.searchAttr = q.searchAttr
  | [], i, q, r => by
    intro h
    unfold setReplicationValue at h
    injection h with h
    rw [← h]
  | e :: es, i, q, r => by
    intro h
    unfold setReplicationValue at h
    by_cases hv : e.GetAttributeValue q.searchAttr = []
    · rw [if_pos hv] at h
      exact setReplicationValue_searchAttr es i q r h
    · rw [if_neg hv] at h
      cases hc : parseContextCSN (e.GetAttributeValue q.searchAttr) with
      | crash => simp only [hc] at h; exact Option.noConfusion h
      | err m =>
        simp only [hc] at h
        cases hrec : setReplicationValue i q es with
        | none => simp only [hrec] at h; exact Option.noConfusion h
        | some rest =>
          simp only [hrec, Option.some.injEq] at h
          rw [← h]
          exact setReplicationValue_searchAttr es i q rest hrec
      | ok gt count sid modv =>
        simp only [hc] at h
        cases hrec : setReplicationValue i { q with RepolicateResult := (gt : ℚ) } es with
        | none => simp only [hrec] at h; exact Option.noConfusion h
        | some rest =>
          have hrest := setReplicationValue_searchAttr es i
            { q with RepolicateResult := (gt : ℚ) } rest hrec
          simp only [hrec, Option.some.injEq] at h
          rw [← h]
          exact hrest

theorem setReplicationDelayValue_query :
    ∀ (es : List Entry) (i : Nat) (q : Query) (r : List Event × Query),
      setReplicationDelayValue i q es = some r → r.2 = q
  | [], i, q, r => by
    intro h
    unfold setReplicationDelayValue at h
    injection h with h
    rw [← h]
  | e :: es, i, q, r => by
    intro h
    unfold setReplicationDelayValue at h
    by_cases hv : e.GetAttributeValue q.searchAttr = []
    · rw [if_pos hv] at h
      exact setReplicationDelayValue_query es i q r h
    · rw [if_neg hv] at h
      cases h0 : (splitOnHash (e.GetAttributeValue q.searchAttr)).get? 0 with
      | none => simp only [h0] at h; exact Option.noConfusion h
      | some f0 =>
        simp only [h0] at h
        cases hg : parseGeneralizedTime f0 with
        | none =>
          simp only [hg] at h
          cases hrec : setReplicationDelayValue i q es with
          | none => simp only [hrec] at h; exact Option.noConfusion h
          | some rest =>
            simp only [hrec, Option.some.injEq] at h
            rw [← h]
            exact setReplicationDelayValue_query es i q rest hrec
        | some gt =>
          simp only [hg] at h
          cases h2 : (splitOnHash (e.GetAttributeValue q.searchAttr)).get? 2 with
          | none => simp only [h2] at h; exact Option.noConfusion h
          | some sid =>
            simp only [h2] at h
            cases hrec : setReplicationDelayValue i q es with
            | none => simp only [hrec] at h; exact Option.noConfusion h
            | some rest =>
              simp only [hrec, Option.some.injEq] at h
              rw [← h]
              exact setReplicationDelayValue_query es i q rest hrec

theorem applySetData_searchAttr {f : DataFun} {i : Nat} {q : Query} {es : List Entry}
    {r : List Event × Query} (h : applySetData f i q es = some r) :
    r.2.searchAttr = q.searchAttr := by
  cases f with
  | setValue =>
    unfold applySetData at h
    injection h with h
    rw [← h, setValue_query]
  | setReplicationValue => exact setReplicationValue_searchAttr es i q r h
  | setReplicationDelayValue =>
    rw [setReplicationDelayValue_query es i q r h]

theorem queryPhase_searchAttr {w : World} {i : Nat} {q : Query}
    {r : Bool × List Event × Query} (h : queryPhase w i q = some r) :
    r.2.2.searchAttr = q.searchAttr := by
  unfold queryPhase at h
  cases hs : w.search i with
  | none =>
    simp only [hs, Option.some.injEq] at h
    rw [← h]
  | some es =>
    simp only [hs] at h
    cases ha : applySetData q.setData i q es with
    | none => simp only [ha] at h; exact Option.noConfusion h
    | some r2 =>
      have hattr := applySetData_searchAttr ha
      simp only [ha, Option.some.injEq] at h
      rw [← h]
      exact hattr

theorem masterCheckAborts_attr_only {s : Scraper} {w : World} {i : Nat} {q q2 : Query}
    (h : q.searchAttr = q2.searchAttr) :
    masterCheckAborts s w i q = masterCheckAborts s w i q2 := by
  unfold masterCheckAborts
  rw [h]

theorem crossCheck_abort_iff (s : Scraper) (w : World) (i : Nat) (q : Query) :
    (∃ tr, crossCheck s w i q = CrossResult.abort tr) ↔ masterCheckAborts s w i q = true := by
  unfold crossCheck masterCheckAborts
  repeat' split <;> try simp_all

theorem scrapeStep_abort_master {s : Scraper} {w : World} {i : Nat} {q q2 : Query}
    {tr : List Event} (h : scrapeStep s w i q = StepResult.abort tr q2) :
    masterCheckAborts s w i q = true := by
  unfold scrapeStep at h
  cases hq : queryPhase w i q with
  | none => simp only [hq] at h; exact StepResult.noConfusion h
  | some r =>
    simp only [hq] at h
    cases hc : crossCheck s w i r.2.2 with
    | crash => simp only [hc] at h; exact StepResult.noConfusion h
    | abort tr2 =>
      rw [masterCheckAborts_attr_only (queryPhase_searchAttr hq).symm]
      exact (crossCheck_abort_iff s w i r.2.2).mp ⟨tr2, hc⟩
    | next tr2 => simp only [hc] at h; exact StepResult.noConfusion h

theorem scrapeStep_next_master {s : Scraper} {w : World} {i : Nat} {q q2 : Query}
    {ok : Bool} {tr : List Event} (h : scrapeStep s w i q = StepResult.next ok tr q2) :
    masterCheckAborts s w i q = false := by
  unfold scrapeStep at h
  cases hq : queryPhase w i q with
  | none => simp only [hq] at h; exact StepResult.noConfusion h
  | some r =>
    simp only [hq] at h
    cases hc : crossCheck s w i r.2.2 with
    | crash => simp only [hc] at h; exact StepResult.noConfusion h
    | abort tr2 => simp only [hc] at h; exact StepResult.noConfusion h
    | next tr2 =>
      rw [masterCheckAborts_attr_only (queryPhase_searchAttr hq).symm]
      by_contra hcon
      rw [Bool.not_eq_false] at hcon
      obtain ⟨tr3, habort⟩ := (crossCheck_abort_iff s w i r.2.2).mpr hcon
      rw [habort] at hc
      exact CrossResult.noConfusion hc

theorem scrapeStep_next_ok {s : Scraper} {w : World} {i : Nat} {q q2 : Query}
    {ok : Bool} {tr : List Event} (h : scrapeStep s w i q = StepResult.next ok tr q2) :
    ok = (w.search i).isSome := by
  unfold scrapeStep at h
  cases hq : queryPhase w i q with
  | none => simp only [hq] at h; exact StepResult.noConfusion h
  | some r =>
    have hr1 : r.1 = (w.search i).isSome := by
      unfold queryPhase at hq
      cases hs : w.search i with
      | none => simp only [hs, Option.some.injEq] at hq; rw [← hq]; rfl
      | some es =>
        simp only [hs] at hq
        cases ha : applySetData q.setData i q es with
        | none => simp only [ha] at hq; exact Option.noConfusion hq
        | some r2 => simp only [ha, Option.some.injEq] at hq; rw [← hq]; rfl
    simp only [hq] at h
    cases hc : crossCheck s w i r.2.2 with
    | crash => simp only [hc] at h; exact StepResult.noConfusion h
    | abort tr2 => simp only [hc] at h; exact StepResult.noConfusion h
    | next tr2 =>
      simp only [hc] at h
      injection h with h1 h2 h3
      rw [← h1, hr1]

theorem scrapeLoop_prefix {s : Scraper} {w : World} :
    ∀ (qs : List Query) (i : Nat) (ret : Bool) (tr : List Event) (acc : List Query)
      {b : Bool} {trOut : List Event} {out : List Query},
      scrapeLoop s w i qs ret tr acc = some (b, trOut, out) →
      ∃ ext, trOut = tr ++ ext
  | [], i, ret, tr, acc, b, trOut, out => by
    intro h
    unfold scrapeLoop at h
    simp only [Option.some.injEq, Prod.mk.injEq] at h
    exact ⟨[], by rw [← h.2.1, List.append_nil]⟩
  | q :: rest, i, ret, tr, acc, b, trOut, out => by
    intro h
    unfold scrapeLoop at h
    cases hstep : scrapeStep s w i q with
    | crash => simp only [hstep] at h; exact Option.noConfusion h
    | abort tr2 q2 =>
      simp only [hstep, Option.some.injEq, Prod.mk.injEq] at h
      exact ⟨tr2, h.2.1.symm⟩
    | next okq tr2 q2 =>
      simp only [hstep] at h
      obtain ⟨ext, hext⟩ := scrapeLoop_prefix rest (i + 1) (ret && okq) (tr ++ tr2) (q2 :: acc) h
      exact ⟨tr2 ++ ext, by rw [hext, List.append_assoc]⟩

theorem scrapeLoop_steps {s : Scraper} {w : World} :
    ∀ (qs : List Query) (i : Nat) (ret : Bool) (tr : List Event) (acc : List Query)
      {b : Bool} {trOut : List Event} {out : List Query},
      scrapeLoop s w i qs ret tr acc = some (b, trOut, out) →
      (∀ k (hk : k < qs.length),
        (scrapeStep s w (i + k) (qs.get ⟨k, hk⟩)).isAbort = false) →
      ∀ j (hj : j < qs.length), ∃ ok trj qj,
        scrapeStep s w (i + j) (qs.get ⟨j, hj⟩) = StepResult.next ok trj qj ∧
        ∀ e ∈ trj, e ∈ trOut
  | [], i, ret, tr, acc, b, trOut, out => by
    intro h hab j hj
    exact absurd hj (by simp)
  | q :: rest, i, ret, tr, acc, b, trOut, out => by
    intro h hab j hj
    unfold scrapeLoop at h
    cases hstep : scrapeStep s w i q with
    | crash => simp only [hstep] at h; exact Option.noConfusion h
    | abort tr2 q2 =>
      have h0 := hab 0 (by simp)
      rw [Nat.add_zero] at h0
      have h0q : (scrapeStep s w i q).isAbort = false := h0
      rw [hstep] at h0q
      exact absurd h0q (by simp [StepResult.isAbort])
    | next okq tr2 q2 =>
      simp only [hstep] at h
      cases j with
      | zero =>
        refine ⟨okq, tr2, q2, ?_, ?_⟩
        · rw [Nat.add_zero]; exact hstep
        · intro e he
          obtain ⟨ext, hext⟩ :=
            scrapeLoop_prefix rest (i + 1) (ret && okq) (tr ++ tr2) (q2 :: acc) h
          rw [hext]
          simp [he]
      | succ j =>
        have hj2 : j < rest.length := by simpa using hj
        have hab2 : ∀ k (hk : k < rest.length),
            (scrapeStep s w (i + 1 + k) (rest.get ⟨k, hk⟩)).isAbort = false := by
          intro k hk
          have hk0 := hab (k + 1) (by simpa using hk)
          rw [show i + (k + 1) = i + 1 + k by omega] at hk0
          exact hk0
        obtain ⟨ok3, tr3, q3, hstep3, hmem⟩ :=
          scrapeLoop_steps rest (i + 1) (ret && okq) (tr ++ tr2) (q2 :: acc) h hab2 j hj2
        refine ⟨ok3, tr3, q3, ?_, hmem⟩
        rw [show i + (j + 1) = i + 1 + j by omega]
        exact hstep3

theorem scrapeLoop_outcome {s : Scraper} {w : World} :
    ∀ (qs : List Query) (i : Nat) (ret : Bool) (tr : List Event) (acc : List Query)
      {b : Bool} {trOut : List Event} {out : List Query},
      scrapeLoop s w i qs ret tr acc = some (b, trOut, out) →
      (b = true ↔ ret = true ∧ ∀ j (hj : j < qs.length),
        (w.search (i + j)).isSome = true ∧
        masterCheckAborts s w (i + j) (qs.get ⟨j, hj⟩) = false)
  | [], i, ret, tr, acc, b, trOut, out => by
    intro h
    unfold scrapeLoop at h
    simp only [Option.some.injEq, Prod.mk.injEq] at h
    rw [← h.1]
    constructor
    · intro hr
      exact ⟨hr, by intro j hj; exact absurd hj (by simp)⟩
    · intro hr
      exact hr.1
  | q :: rest, i, ret, tr, acc, b, trOut, out => by
    intro h
    unfold scrapeLoop at h
    cases hstep : scrapeStep s w i q with
    | crash => simp only [hstep] at h; exact Option.noConfusion h
    | abort tr2 q2 =>
      simp only [hstep, Option.some.injEq, Prod.mk.injEq] at h
      have hmca := scrapeStep_abort_master hstep
      rw [← h.1]
      constructor
      · intro hf
        exact absurd hf (by simp)
      · rintro ⟨-, hall⟩
        have h2 : masterCheckAborts s w i q = false := by
          have h3 := (hall 0 (by simp)).2
          rw [Nat.add_zero] at h3
          exact h3
        rw [hmca] at h2
        exact Bool.noConfusion h2
    | next okq tr2 q2 =>
      simp only [hstep] at h
      have IH := scrapeLoop_outcome rest (i + 1) (ret && okq) (tr ++ tr2) (q2 :: acc) h
      have hok := scrapeStep_next_ok hstep
      have hmca := scrapeStep_next_master hstep
      rw [IH]
      constructor
      · rintro ⟨hretok, hall⟩
        rw [Bool.and_eq_true] at hretok
        refine ⟨hretok.1, ?_⟩
        intro j hj
        cases j with
        | zero =>
          refine ⟨?_, ?_⟩
          · rw [Nat.add_zero, ← hok]; exact hretok.2
          · rw [Nat.add_zero]; exact hmca
        | succ j =>
          have hj2 : j < rest.length := by simpa using hj
          have hthis := hall j hj2
          refine ⟨?_, ?_⟩
          · rw [show i + (j + 1) = i + 1 + j by omega]; exact hthis.1
          · rw [show i + (j + 1) = i + 1 + j by omega]; exact hthis.2
      · rintro ⟨hret, hall⟩
        refine ⟨?_, ?_⟩
        · rw [Bool.and_eq_true]
          refine ⟨hret, ?_⟩
          rw [hok]
          exact (hall 0 (by simp)).1
        · intro j hj
          have hthis := hall (j + 1) (by simpa using hj)
          refine ⟨?_, ?_⟩
          · rw [show i + 1 + j = i + (j + 1) by omega]; exact hthis.1
          · rw [show i + 1 + j = i + (j + 1) by omega]; exact hthis.2

theorem scrape_outcome {s : Scraper} {w : World} {qs : List Query}
    {b : Bool} {trOut : List Event} {out : List Query}
    (h : scrape s w qs = some (b, trOut, out)) :
    b = true ↔
      (w.dialOk = true ∧
       (s.User ≠ [] ∧ s.Pass ≠ [] → w.bind s.User s.Pass = true) ∧
       ∀ j (hj : j < qs.length),
         (w.search j).isSome = true ∧
         masterCheckAborts s w j (qs.get ⟨j, hj⟩) = false) := by
  simp only [scrape] at h
  by_cases hd : w.dialOk = true
  · rw [if_pos hd] at h
    by_cases hc : s.User ≠ [] ∧ s.Pass ≠ []
    · rw [if_pos hc] at h
      by_cases hb : w.bind s.User s.Pass = true
      · rw [if_pos hb] at h
        rw [scrapeLoop_outcome qs 0 true _ [] h]
        constructor
        · rintro ⟨-, hall⟩
          refine ⟨hd, fun _ => hb, ?_⟩
          intro j hj
          have hthis := hall j hj
          rw [Nat.zero_add] at hthis
          exact hthis
        · rintro ⟨-, -, hall⟩
          refine ⟨rfl, ?_⟩
          intro j hj
          rw [Nat.zero_add]
          exact hall j hj
      · rw [if_neg hb] at h
        simp only [Option.some.injEq, Prod.mk.injEq] at h
        rw [← h.1]
        constructor
        · intro hx
          exact absurd hx (by simp)
        · rintro ⟨-, hbind, -⟩
          exact absurd (hbind hc) hb
    · rw [if_neg hc] at h
      rw [scrapeLoop_outcome qs 0 true _ [] h]
      constructor
      · rintro ⟨-, hall⟩
        refine ⟨hd, fun hcc => absurd hcc hc, ?_⟩
        intro j hj
        have hthis := hall j hj
        rw [Nat.zero_add] at hthis
        exact hthis
      · rintro ⟨-, -, hall⟩
        refine ⟨rfl, ?_⟩
        intro j hj
        rw [Nat.zero_add]
        exact hall j hj
  · rw [if_neg hd] at h
    simp only [Option.some.injEq, Prod.mk.injEq] at h
    rw [← h.1]
    constructor
    · intro hx
      exact absurd hx (by simp)
    · rintro ⟨hdd, -, -⟩
      exact absurd hdd hd

/-- C3 counterexample: a cycle in which the dial succeeds, no bind is
attempted (empty credentials), and delay checking is disabled — so the
claim predicts success — yet a query search error makes the outcome a
failure. -/
theorem c3_counterexample :
    scraperPlain.LdapSyncTimeDetal = false ∧
    worldC3.dialOk = true ∧
    scraperPlain.User = [] ∧
    (scrape scraperPlain worldC3 [replQuery0]).map (fun r => r.1) = some false := by
  exact ⟨rfl, rfl, rfl, by decide⟩

/-- C3 (amended): a completed cycle succeeds iff the dial succeeded, the
bind — attempted only when both credentials are non-empty — succeeded,
every catalog query's search succeeded, and no enabled replication-delay
cross-check failed (master dial/bind/search failure, empty master result,
or unparseable master timestamp).  Skipped attribute parses never fail the
cycle; a failed query search, which the claim's biconditional omitted,
does. -/
theorem c3_amended_outcome {s : Scraper} {w : World} {qs : List Query}
    {b : Bool} {trOut : List Event} {out : List Query}
    (h : scrape s w qs = some (b, trOut, out)) :
    b = true ↔
      (w.dialOk = true ∧
       (s.User ≠ [] ∧ s.Pass ≠ [] → w.bind s.User s.Pass = true) ∧
       ∀ j (hj : j < qs.length),
         (w.search j).isSome = true ∧
         masterCheckAborts s w j (qs.get ⟨j, hj⟩) = false) :=
  scrape_outcome h

/-- Witness for c3_amended_outcome at a concrete failed cycle: one
replication query whose search errors, delay checking off. -/
theorem c3_witness :
    (false = true ↔
      (worldC3.dialOk = true ∧
       (scraperPlain.User ≠ [] ∧ scraperPlain.Pass ≠ [] →
         worldC3.bind scraperPlain.User scraperPlain.Pass = true) ∧
       ∀ j (hj : j < [replQuery0].length),
         (worldC3.search j).isSome = true ∧
         masterCheckAborts scraperPlain worldC3 j ([replQuery0].get ⟨j, hj⟩) = false)) :=
  c3_amended_outcome
    (show scrape scraperPlain worldC3 [replQuery0] =
      some (false,
        [Event.dial false scraperPlain.Addr,
         Event.searchCall 0 replQuery0.baseDN replQuery0.searchFilter replQuery0.searchAttr,
         Event.queryWarn 0 replQuery0.searchFilter replQuery0.baseDN],
        [replQuery0]) by decide)

theorem masterCheckAborts_delay_off (s : Scraper) (w : World) (i : Nat) (q : Query)
    (hdelay : s.LdapSyncTimeDetal = false) : masterCheckAborts s w i q = false := by
  unfold masterCheckAborts
  rw [hdelay]
  simp

theorem scrapeStep_isAbort_delay_off (s : Scraper) (w : World) (i : Nat) (q : Query)
    (hdelay : s.LdapSyncTimeDetal = false) : (scrapeStep s w i q).isAbort = false := by
  cases hstep : scrapeStep s w i q with
  | crash => rfl
  | next ok tr q2 => rfl
  | abort tr q2 =>
    have hmca := scrapeStep_abort_master hstep
    rw [masterCheckAborts_delay_off s w i q hdelay] at hmca
    exact Bool.noConfusion hmca

theorem crossCheck_delay_off (s : Scraper) (w : World) (i : Nat) (q : Query)
    (hdelay : s.LdapSyncTimeDetal = false) : crossCheck s w i q = CrossResult.next [] := by
  unfold crossCheck
  rw [hdelay]
  split
  · simp
  · rfl

theorem scrapeStep_searchErr_delay_off (s : Scraper) (w : World) (i : Nat) (q : Query)
    (hdelay : s.LdapSyncTimeDetal = false) (herr : w.search i = none) :
    scrapeStep s w i q =
      StepResult.next false
        [Event.searchCall i q.baseDN q.searchFilter q.searchAttr,
         Event.queryWarn i q.searchFilter q.baseDN] q := by
  have hcc := crossCheck_delay_off s w i q hdelay
  simp [scrapeStep, queryPhase, herr, hcc]

theorem queryPhase_searchCall {w : World} {i : Nat} {q : Query}
    {r : Bool × List Event × Query} (h : queryPhase w i q = some r) :
    Event.searchCall i q.baseDN q.searchFilter q.searchAttr ∈ r.2.1 := by
  unfold queryPhase at h
  cases hs : w.search i with
  | none =>
    simp only [hs, Option.some.injEq] at h
    rw [← h]
    simp
  | some es =>
    simp only [hs] at h
    cases ha : applySetData q.setData i q es with
    | none => simp only [ha] at h; exact Option.noConfusion h
    | some r2 =>
      simp only [ha, Option.some.injEq] at h
      rw [← h]
      simp

theorem scrapeStep_next_searchCall {s : Scraper} {w : World} {i : Nat} {q q2 : Query}
    {ok : Bool} {tr : List Event} (h : scrapeStep s w i q = StepResult.next ok tr q2) :
    Event.searchCall i q.baseDN q.searchFilter q.searchAttr ∈ tr := by
  unfold scrapeStep at h
  cases hq : queryPhase w i q with
  | none => simp only [hq] at h; exact StepResult.noConfusion h
  | some r =>
    have hmem := queryPhase_searchCall hq
    simp only [hq] at h
    cases hc : crossCheck s w i r.2.2 with
    | crash => simp only [hc] at h; exact StepResult.noConfusion h
    | abort tr2 => simp only [hc] at h; exact StepResult.noConfusion h
    | next tr2 =>
      simp only [hc] at h
      injection h with h1 h2 h3
      rw [← h2]
      exact List.mem_append_left _ hmem

theorem setValue_evIdx : ∀ (es : List Entry) (i : Nat) (q : Query) (e : Event),
    e ∈ (setValue i q es).1 → evIdx e = some i
  | [], i, q, e => by intro h; simp [setValue] at h
  | en :: es, i, q, e => by
    intro h
    unfold setValue at h
    by_cases hv : en.GetAttributeValue q.searchAttr = []
    · rw [if_pos hv] at h
      exact setValue_evIdx es i q e h
    · rw [if_neg hv] at h
      cases hp : parseFloat (en.GetAttributeValue q.searchAttr) with
      | none =>
        simp only [hp] at h
        exact setValue_evIdx es i q e h
      | some v =>
        simp only [hp] at h
        rcases List.mem_cons.mp h with he | he
        · rw [he]; rfl
        · exact setValue_evIdx es i q e he

theorem setReplicationValue_evIdx :
    ∀ (es : List Entry) (i : Nat) (q : Query) (r : List Event × Query) (e : Event),
      setReplicationValue i q es = some r → e ∈ r.1 → evIdx e = some i
  | [], i, q, r, e => by
    intro h hm
    unfold setReplicationValue at h
    injection h with h
    rw [← h] at hm
    simp at hm
  | en :: es, i, q, r, e => by
    intro h hm
    unfold setReplicationValue at h
    by_cases hv : en.GetAttributeValue q.searchAttr = []
    · rw [if_pos hv] at h
      exact setReplicationValue_evIdx es i q r e h hm
    · rw [if_neg hv] at h
      cases hc : parseContextCSN (en.GetAttributeValue q.searchAttr) with
      | crash => simp only [hc] at h; exact Option.noConfusion h
      | err m =>
        simp only [hc] at h
        cases hrec : setReplicationValue i q es with
        | none => simp only [hrec] at h; exact Option.noConfusion h
        | some rest =>
          simp only [hrec, Option.some.injEq] at h
          rw [← h] at hm
          rcases List.mem_cons.mp hm with he | he
          · rw [he]; rfl
          · exact setReplicationValue_evIdx es i q rest e hrec he
      | ok gt count sid modv =>
        simp only [hc] at h
        cases hrec : setReplicationValue i { q with RepolicateResult := (gt : ℚ) } es with
        | none => simp only [hrec] at h; exact Option.noConfusion h
        | some rest =>
          simp only [hrec, Option.some.injEq] at h
          rw [← h] at hm
          rcases List.mem_cons.mp hm with he | he
          · rw [he]; rfl
          · rcases List.mem_cons.mp he with he2 | he2
            · rw [he2]; rfl
            · rcases List.mem_cons.mp he2 with he3 | he3
              · rw [he3]; rfl
              · exact setReplicationValue_evIdx es i _ rest e hrec he3

theorem setReplicationDelayValue_evIdx :
    ∀ (es : List Entry) (i : Nat) (q : Query) (r : List Event × Query) (e : Event),
      setReplicationDelayValue i q es = some r → e ∈ r.1 → evIdx e = some i
  | [], i, q, r, e => by
    intro h hm
    unfold setReplicationDelayValue at h
    injection h with h
    rw [← h] at hm
    simp at hm
  | en :: es, i, q, r, e => by
    intro h hm
    unfold setReplicationDelayValue at h
    by_cases hv : en.GetAttributeValue q.searchAttr = []
    · rw [if_pos hv] at h
      exact setReplicationDelayValue_evIdx es i q r e h hm
    · rw [if_neg hv] at h
      cases h0 : (splitOnHash (en.GetAttributeValue q.searchAttr)).get? 0 with
      | none => simp only [h0] at h; exact Option.noConfusion h
      | some f0 =>
        simp only [h0] at h
        cases hg : parseGeneralizedTime f0 with
        | none =>
          simp only [hg] at h
          cases hrec : setReplicationDelayValue i q es with
          | none => simp only [hrec] at h; exact Option.noConfusion h
          | some rest =>
            simp only [hrec, Option.some.injEq] at h
            rw [← h] at hm
            rcases List.mem_cons.mp hm with he | he
            · rw [he]; rfl
            · exact setReplicationDelayValue_evIdx es i q rest e hrec he
        | some gt =>
          simp only [hg] at h
          cases h2 : (splitOnHash (en.GetAttributeValue q.searchAttr)).get? 2 with
          | none => simp only [h2] at h; exact Option.noConfusion h
          | some sid =>
            simp only [h2] at h
            cases hrec : setReplicationDelayValue i q es with
            | none => simp only [hrec] at h; exact Option.noConfusion h
            | some rest =>
              simp only [hrec, Option.some.injEq] at h
              rw [← h] at hm
              rcases List.mem_cons.mp hm with he | he
              · rw [he]; rfl
              · exact setReplicationDelayValue_evIdx es i q rest e hrec he

theorem applySetData_evIdx {f : DataFun} {i : Nat} {q : Query} {es : List Entry}
    {r : List Event × Query} {e : Event} (h : applySetData f i q es = some r)
    (hm : e ∈ r.1) : evIdx e = some i := by
  cases f with
  | setValue =>
    unfold applySetData at h
    injection h with h
    rw [← h] at hm
    exact setValue_evIdx es i q e hm
  | setReplicationValue => exact setReplicationValue_evIdx es i q r e h hm
  | setReplicationDelayValue => exact setReplicationDelayValue_evIdx es i q r e h hm

theorem queryPhase_evIdx {w : World} {i : Nat} {q : Query}
    {r : Bool × List Event × Query} {e : Event} (h : queryPhase w i q = some r)
    (hm : e ∈ r.2.1) : evIdx e = some i := by
  unfold queryPhase at h
  cases hs : w.search i with
  | none =>
    simp only [hs, Option.some.injEq] at h
    rw [← h] at hm
    simp only [List.mem_append, List.mem_cons, List.mem_singleton] at hm
    rcases hm with hm | hm
    · simp at hm
      rw [hm]
      rfl
    · simp at hm
      rw [hm]
      rfl
  | some es =>
    simp only [hs] at h
    cases ha : applySetData q.setData i q es with
    | none => simp only [ha] at h; exact Option.noConfusion h
    | some r2 =>
      simp only [ha, Option.some.injEq] at h
      rw [← h] at hm
      rcases List.mem_append.mp hm with hm2 | hm2
      · simp at hm2
        rw [hm2]
        rfl
      · exact applySetData_evIdx ha hm2

theorem crossCheck_next_evIdx {s : Scraper} {w : World} {i : Nat} {q : Query}
    {tr : List Event} (h : crossCheck s w i q = CrossResult.next tr) :
    ∀ e ∈ tr, evIdx e = none ∨ evIdx e = some i := by
  simp only [crossCheck] at h
  repeat' split at h
  all_goals first
    | exact CrossResult.noConfusion h
    | (injection h with h
       subst h
       intro e he
       try simp only [List.cons_append, List.nil_append, List.singleton_append,
         List.append_assoc] at he
       fin_cases he <;> simp [evIdx])

theorem crossCheck_abort_evIdx {s : Scraper} {w : World} {i : Nat} {q : Query}
    {tr : List Event} (h : crossCheck s w i q = CrossResult.abort tr) :
    ∀ e ∈ tr, evIdx e = none ∨ evIdx e = some i := by
  simp only [crossCheck] at h
  repeat' split at h
  all_goals first
    | exact CrossResult.noConfusion h
    | (injection h with h
       subst h
       intro e he
       try simp only [List.cons_append, List.nil_append, List.singleton_append,
         List.append_assoc] at he
       fin_cases he <;> simp [evIdx])

theorem scrapeStep_next_evIdx {s : Scraper} {w : World} {i : Nat} {q q2 : Query}
    {ok : Bool} {tr : List Event} (h : scrapeStep s w i q = StepResult.next ok tr q2) :
    ∀ e ∈ tr, evIdx e = none ∨ evIdx e = some i := by
  unfold scrapeStep at h
  cases hq : queryPhase w i q with
  | none => simp only [hq] at h; exact StepResult.noConfusion h
  | some r =>
    simp only [hq] at h
    cases hc : crossCheck s w i r.2.2 with
    | crash => simp only [hc] at h; exact StepResult.noConfusion h
    | abort tr2 => simp only [hc] at h; exact StepResult.noConfusion h
    | next tr2 =>
      simp only [hc] at h
      injection h with h1 h2 h3
      rw [← h2]
      intro e he
      rcases List.mem_append.mp he with hm | hm
      · right
        exact queryPhase_evIdx hq hm
      · exact crossCheck_next_evIdx hc e hm

theorem scrapeStep_abort_evIdx {s : Scraper} {w : World} {i : Nat} {q q2 : Query}
    {tr : List Event} (h : scrapeStep s w i q = StepResult.abort tr q2) :
    ∀ e ∈ tr, evIdx e = none ∨ evIdx e = some i := by
  unfold scrapeStep at h
  cases hq : queryPhase w i q with
  | none => simp only [hq] at h; exact StepResult.noConfusion h
  | some r =>
    simp only [hq] at h
    cases hc : crossCheck s w i r.2.2 with
    | crash => simp only [hc] at h; exact StepResult.noConfusion h
    | next tr2 => simp only [hc] at h; exact StepResult.noConfusion h
    | abort tr2 =>
      simp only [hc] at h
      injection h with h1 h2
      rw [← h1]
      intro e he
      rcases List.mem_append.mp he with hm | hm
      · right
        exact queryPhase_evIdx hq hm
      · exact crossCheck_abort_evIdx hc e hm

theorem scrapeLoop_events {s : Scraper} {w : World} :
    ∀ (qs : List Query) (i : Nat) (ret : Bool) (tr : List Event) (acc : List Query)
      {b : Bool} {trOut : List Event} {out : List Query},
      scrapeLoop s w i qs ret tr acc = some (b, trOut, out) →
      ∀ e ∈ trOut, e ∈ tr ∨ ∃ j, ∃ hj : j < qs.length, ∃ trj,
        ((∃ ok qj, scrapeStep s w (i + j) (qs.get ⟨j, hj⟩) = StepResult.next ok trj qj) ∨
         (∃ qj, scrapeStep s w (i + j) (qs.get ⟨j, hj⟩) = StepResult.abort trj qj)) ∧
        e ∈ trj
  | [], i, ret, tr, acc, b, trOut, out => by
    intro h e he
    unfold scrapeLoop at h
    simp only [Option.some.injEq, Prod.mk.injEq] at h
    left
    rw [h.2.1]
    exact he
  | q :: rest, i, ret, tr, acc, b, trOut, out => by
    intro h e he
    unfold scrapeLoop at h
    cases hstep : scrapeStep s w i q with
    | crash => simp only [hstep] at h; exact Option.noConfusion h
    | abort tr2 q2 =>
      simp only [hstep, Option.some.injEq, Prod.mk.injEq] at h
      rw [← h.2.1] at he
      rcases List.mem_append.mp he with hm | hm
      · left; exact hm
      · right
        refine ⟨0, by simp, tr2, ?_, hm⟩
        right
        rw [Nat.add_zero]
        exact ⟨q2, hstep⟩
    | next okq tr2 q2 =>
      simp only [hstep] at h
      rcases scrapeLoop_events rest (i + 1) (ret && okq) (tr ++ tr2) (q2 :: acc) h e he with
        hm | ⟨j, hj, trj, hstep2, hmem⟩
      · rcases List.mem_append.mp hm with hm2 | hm2
        · left; exact hm2
        · right
          refine ⟨0, by simp, tr2, ?_, hm2⟩
          left
          rw [Nat.add_zero]
          exact ⟨okq, q2, hstep⟩
      · right
        refine ⟨j + 1, by simpa using hj, trj, ?_, hmem⟩
        rw [show i + (j + 1) = i + 1 + j by omega]
        exact hstep2

theorem scrape_steps {s : Scraper} {w : World} {qs : List Query}
    {b : Bool} {trOut : List Event} {out : List Query}
    (h : scrape s w qs = some (b, trOut, out))
    (hd : w.dialOk = true)
    (hbind : s.User ≠ [] ∧ s.Pass ≠ [] → w.bind s.User s.Pass = true)
    (hnoab : ∀ k (hk : k < qs.length),
      (scrapeStep s w k (qs.get ⟨k, hk⟩)).isAbort = false) :
    ∀ j (hj : j < qs.length), ∃ ok trj qj,
      scrapeStep s w j (qs.get ⟨j, hj⟩) = StepResult.next ok trj qj ∧
      ∀ e ∈ trj, e ∈ trOut := by
  have hnoab0 : ∀ k (hk : k < qs.length),
      (scrapeStep s w (0 + k) (qs.get ⟨k, hk⟩)).isAbort = false := by
    intro k hk
    rw [Nat.zero_add]
    exact hnoab k hk
  intro j hj
  simp only [scrape] at h
  rw [if_pos hd] at h
  by_cases hc : s.User ≠ [] ∧ s.Pass ≠ []
  · rw [if_pos hc, if_pos (hbind hc)] at h
    have hsteps := scrapeLoop_steps qs 0 true _ [] h hnoab0 j hj
    rw [Nat.zero_add] at hsteps
    exact hsteps
  · rw [if_neg hc] at h
    have hsteps := scrapeLoop_steps qs 0 true _ [] h hnoab0 j hj
    rw [Nat.zero_add] at hsteps
    exact hsteps

theorem scrape_events {s : Scraper} {w : World} {qs : List Query}
    {b : Bool} {trOut : List Event} {out : List Query}
    (h : scrape s w qs = some (b, trOut, out))
    (hd : w.dialOk = true)
    (hbind : s.User ≠ [] ∧ s.Pass ≠ [] → w.bind s.User s.Pass = true) :
    ∀ e ∈ trOut,
      e = Event.dial false s.Addr ∨ e = Event.bindCall false s.User s.Pass ∨
      ∃ j, ∃ hj : j < qs.length, ∃ trj,
        ((∃ ok qj, scrapeStep s w j (qs.get ⟨j, hj⟩) = StepResult.next ok trj qj) ∨
         (∃ qj, scrapeStep s w j (qs.get ⟨j, hj⟩) = StepResult.abort trj qj)) ∧
        e ∈ trj := by
  intro e he
  simp only [scrape] at h
  rw [if_pos hd] at h
  by_cases hc : s.User ≠ [] ∧ s.Pass ≠ []
  · rw [if_pos hc, if_pos (hbind hc)] at h
    rcases scrapeLoop_events qs 0 true _ [] h e he with hm | ⟨j, hj, trj, hstep, hmem⟩
    · rcases List.mem_append.mp hm with hm2 | hm2
      · left; simpa using hm2
      · right; left; simpa using hm2
    · right; right
      rw [Nat.zero_add] at hstep
      exact ⟨j, hj, trj, hstep, hmem⟩
  · rw [if_neg hc] at h
    rcases scrapeLoop_events qs 0 true _ [] h e he with hm | ⟨j, hj, trj, hstep, hmem⟩
    · left; simpa using hm
    · right; right
      rw [Nat.zero_add] at hstep
      exact ⟨j, hj, trj, hstep, hmem⟩

/-- C4: in a completed cycle that reached the query loop (dial, and bind
when attempted, succeeded) with delay checking disabled, a query whose
search execution fails is logged with its filter and base-DN context, that
query contributes no metric point anywhere in the cycle, every catalog
query's search is still executed, and the overall cycle outcome is
failure. -/
theorem c4_search_failure_handling (s : Scraper) (w : World) (qs : List Query)
    (b : Bool) (tr : List Event) (out : List Query) (i : Nat) (hi : i < qs.length)
    (hdelay : s.LdapSyncTimeDetal = false)
    (hd : w.dialOk = true)
    (hbind : s.User ≠ [] ∧ s.Pass ≠ [] → w.bind s.User s.Pass = true)
    (hrun : scrape s w qs = some (b, tr, out))
    (herr : w.search i = none) :
    b = false ∧
    Event.queryWarn i (qs.get ⟨i, hi⟩).searchFilter (qs.get ⟨i, hi⟩).baseDN ∈ tr ∧
    (∀ j (hj : j < qs.length),
      Event.searchCall j (qs.get ⟨j, hj⟩).baseDN (qs.get ⟨j, hj⟩).searchFilter
        (qs.get ⟨j, hj⟩).searchAttr ∈ tr) ∧
    (∀ m ls v, Event.metricSet i m ls v ∉ tr) := by
  have hnoab : ∀ k (hk : k < qs.length),
      (scrapeStep s w k (qs.get ⟨k, hk⟩)).isAbort = false :=
    fun k hk => scrapeStep_isAbort_delay_off s w k _ hdelay
  have hsteps := scrape_steps hrun hd hbind hnoab
  refine ⟨?_, ?_, ?_, ?_⟩
  · rcases Bool.eq_false_or_eq_true b with hb | hb
    swap
    · exact hb
    · have hall := (scrape_outcome hrun).mp hb
      have hsome := (hall.2.2 i hi).1
      rw [herr] at hsome
      exact absurd hsome (by simp)
  · obtain ⟨ok, trj, qj, hstep, hmem⟩ := hsteps i hi
    have hstep2 := scrapeStep_searchErr_delay_off s w i (qs.get ⟨i, hi⟩) hdelay herr
    rw [hstep2] at hstep
    injection hstep with h1 h2 h3
    apply hmem
    rw [← h2]
    simp
  · intro j hj
    obtain ⟨ok, trj, qj, hstep, hmem⟩ := hsteps j hj
    exact hmem _ (scrapeStep_next_searchCall hstep)
  · intro m ls v hmem
    rcases scrape_events hrun hd hbind _ hmem with he | he | ⟨j, hj, trj, hstepor, hmemj⟩
    · exact Event.noConfusion he
    · exact Event.noConfusion he
    · rcases hstepor with ⟨ok, qj, hstep⟩ | ⟨qj, hstep⟩
      · have hidx := scrapeStep_next_evIdx hstep _ hmemj
        rcases hidx with hnone | hsome
        · exact Option.noConfusion hnone
        · have h5 : (some i : Option Nat) = some j := hsome
          injection h5 with h6
          subst h6
          have hstep2 := scrapeStep_searchErr_delay_off s w i (qs.get ⟨i, hj⟩) hdelay herr
          rw [hstep2] at hstep
          injection hstep with h1 h2 h3
          rw [← h2] at hmemj
          simp at hmemj
      · have hab := hnoab j hj
        rw [hstep] at hab
        exact absurd hab (by simp [StepResult.isAbort])

/-- Witness for c4_search_failure_handling: single replication query whose
search errors; the cycle completes with outcome failure, the warning and
the search call in the trace, and no metric points. -/
theorem c4_witness :
    false = false ∧
    Event.queryWarn 0 ([replQuery0].get ⟨0, by decide⟩).searchFilter
      ([replQuery0].get ⟨0, by decide⟩).baseDN ∈
        [Event.dial false scraperPlain.Addr,
         Event.searchCall 0 replQuery0.baseDN replQuery0.searchFilter replQuery0.searchAttr,
         Event.queryWarn 0 replQuery0.searchFilter replQuery0.baseDN] ∧
    (∀ j (hj : j < [replQuery0].length),
      Event.searchCall j ([replQuery0].get ⟨j, hj⟩).baseDN
        ([replQuery0].get ⟨j, hj⟩).searchFilter ([replQuery0].get ⟨j, hj⟩).searchAttr ∈
        [Event.dial false scraperPlain.Addr,
         Event.searchCall 0 replQuery0.baseDN replQuery0.searchFilter replQuery0.searchAttr,
         Event.queryWarn 0 replQuery0.searchFilter replQuery0.baseDN]) ∧
    (∀ m ls v, Event.metricSet 0 m ls v ∉
        [Event.dial false scraperPlain.Addr,
         Event.searchCall 0 replQuery0.baseDN replQuery0.searchFilter replQuery0.searchAttr,
         Event.queryWarn 0 replQuery0.searchFilter replQuery0.baseDN]) :=
  c4_search_failure_handling scraperPlain worldC3 [replQuery0] false
    [Event.dial false scraperPlain.Addr,
     Event.searchCall 0 replQuery0.baseDN replQuery0.searchFilter replQuery0.searchAttr,
     Event.queryWarn 0 replQuery0.searchFilter replQuery0.baseDN]
    [replQuery0] 0 (by decide) rfl rfl (fun hcc => absurd rfl hcc.1)
    (show scrape scraperPlain worldC3 [replQuery0] =
      some (false,
        [Event.dial false scraperPlain.Addr,
         Event.searchCall 0 replQuery0.baseDN replQuery0.searchFilter replQuery0.searchAttr,
         Event.queryWarn 0 replQuery0.searchFilter replQuery0.baseDN],
        [replQuery0]) by decide)
    rfl

theorem map_ev_no_inc (tr : List Event) :
    (tr.map CycleEvent.ev).countP isIncEvent = 0 := by
  induction tr with
  | nil => rfl
  | cons e tr ih => simp [List.countP_cons, isIncEvent, ih]

/-- C6: every completed cycle performs exactly one scrape-counter
increment — labelled `ok` when the cycle succeeded and `fail` otherwise —
regardless of how many query or parse failures occurred inside the
cycle. -/
theorem c6_single_counter_increment (s : Scraper) (w : World) (qs : List Query)
    (b : Bool) (tr : List Event) (out : List Query)
    (h : scrape s w qs = some (b, tr, out)) :
    runOnce s w qs =
      some (tr.map CycleEvent.ev ++
        [CycleEvent.inc (if b then labelOk else labelFail)], out) ∧
    (tr.map CycleEvent.ev ++
      [CycleEvent.inc (if b then labelOk else labelFail)]).countP isIncEvent = 1 := by
  constructor
  · simp only [runOnce, h]
  · rw [List.countP_append, map_ev_no_inc]
    rfl

/-- Witness for c6_single_counter_increment on a successful empty-catalog
cycle. -/
theorem c6_witness :
    runOnce scraperPlain worldC3 [] =
      some ([Event.dial false scraperPlain.Addr].map CycleEvent.ev ++
        [CycleEvent.inc (if true then labelOk else labelFail)], ([] : List Query)) ∧
    ([Event.dial false scraperPlain.Addr].map CycleEvent.ev ++
      [CycleEvent.inc (if true then labelOk else labelFail)]).countP isIncEvent = 1 :=
  c6_single_counter_increment scraperPlain worldC3 [] true
    [Event.dial false scraperPlain.Addr] [] rfl

theorem scrapeStep_setValue (s : Scraper) (w : World) (i : Nat) (q : Query)
    (hattr : q.searchAttr ≠ monitorReplicationFilter)
    (hsd : q.setData = DataFun.setValue) :
    ∃ ok trj, scrapeStep s w i q = StepResult.next ok trj q ∧
      Event.searchCall i q.baseDN q.searchFilter q.searchAttr ∈ trj := by
  have hcc : crossCheck s w i q = CrossResult.next [] := by
    unfold crossCheck
    rw [if_neg hattr]
  cases hs : w.search i with
  | none =>
    refine ⟨false, [Event.searchCall i q.baseDN q.searchFilter q.searchAttr,
      Event.queryWarn i q.searchFilter q.baseDN], ?_, by simp⟩
    simp [scrapeStep, queryPhase, hs, hcc]
  | some es =>
    refine ⟨true, Event.searchCall i q.baseDN q.searchFilter q.searchAttr ::
      (setValue i q es).1, ?_, by simp⟩
    have hq := setValue_query es i q
    simp [scrapeStep, queryPhase, hs, applySetData, hsd, hq, hcc]

/-- C9: the static catalog holds four entries whose third and fourth are
structurally identical per-operation completion-count descriptors (same
base DN, filter, attribute, metric and parser — only three of the four
are distinct), and any cycle that reaches the query loop therefore issues
that identical search twice, the second run overwriting the first's
points. -/
theorem c9_duplicate_static_query (s : Scraper) (w : World) (b : Bool)
    (tr : List Event) (out : List Query)
    (hrun : scrape s w queries = some (b, tr, out))
    (hd : w.dialOk = true)
    (hbind : s.User ≠ [] ∧ s.Pass ≠ [] → w.bind s.User s.Pass = true) :
    queries.length = 4 ∧
    queries.get ⟨2, by decide⟩ = queries.get ⟨3, by decide⟩ ∧
    queries.get ⟨0, by decide⟩ ≠ queries.get ⟨1, by decide⟩ ∧
    queries.get ⟨0, by decide⟩ ≠ queries.get ⟨2, by decide⟩ ∧
    queries.get ⟨1, by decide⟩ ≠ queries.get ⟨2, by decide⟩ ∧
    Event.searchCall 2 opsBaseDN (objectClassFilter monitorOperation) monitorOpCompleted ∈ tr ∧
    Event.searchCall 3 opsBaseDN (objectClassFilter monitorOperation) monitorOpCompleted ∈ tr := by
  have hnoab : ∀ k (hk : k < queries.length),
      (scrapeStep s w k (queries.get ⟨k, hk⟩)).isAbort = false := by
    intro k hk
    have hk4 : k = 0 ∨ k = 1 ∨ k = 2 ∨ k = 3 := by
      have hlt : k < 4 := hk
      omega
    rcases hk4 with rfl | rfl | rfl | rfl
    · obtain ⟨ok, trj, hstep, -⟩ := scrapeStep_setValue s w 0 (queries.get ⟨0, hk⟩)
        (by decide : monitoredInfo ≠ monitorReplicationFilter) rfl
      rw [hstep]; rfl
    · obtain ⟨ok, trj, hstep, -⟩ := scrapeStep_setValue s w 1 (queries.get ⟨1, hk⟩)
        (by decide : monitorCounter ≠ monitorReplicationFilter) rfl
      rw [hstep]; rfl
    · obtain ⟨ok, trj, hstep, -⟩ := scrapeStep_setValue s w 2 (queries.get ⟨2, hk⟩)
        (by decide : monitorOpCompleted ≠ monitorReplicationFilter) rfl
      rw [hstep]; rfl
    · obtain ⟨ok, trj, hstep, -⟩ := scrapeStep_setValue s w 3 (queries.get ⟨3, hk⟩)
        (by decide : monitorOpCompleted ≠ monitorReplicationFilter) rfl
      rw [hstep]; rfl
  have hsteps := scrape_steps hrun hd hbind hnoab
  refine ⟨rfl, by decide, by decide, by decide, by decide, ?_, ?_⟩
  · obtain ⟨ok, trj, qj, hstep, hmem⟩ := hsteps 2 (by decide)
    exact hmem _ (scrapeStep_next_searchCall hstep)
  · obtain ⟨ok, trj, qj, hstep, hmem⟩ := hsteps 3 (by decide)
    exact hmem _ (scrapeStep_next_searchCall hstep)

/-- Witness for c9_duplicate_static_query on a concrete completed cycle
over the static catalog. -/
theorem c9_witness :
    queries.length = 4 ∧
    queries.get ⟨2, by decide⟩ = queries.get ⟨3, by decide⟩ ∧
    queries.get ⟨0, by decide⟩ ≠ queries.get ⟨1, by decide⟩ ∧
    queries.get ⟨0, by decide⟩ ≠ queries.get ⟨2, by decide⟩ ∧
    queries.get ⟨1, by decide⟩ ≠ queries.get ⟨2, by decide⟩ ∧
    Event.searchCall 2 opsBaseDN (objectClassFilter monitorOperation) monitorOpCompleted ∈
      traceC9 ∧
    Event.searchCall 3 opsBaseDN (objectClassFilter monitorOperation) monitorOpCompleted ∈
      traceC9 :=
  c9_duplicate_static_query scraperPlain worldC3 false traceC9 queries
    (show scrape scraperPlain worldC3 queries = some (false, traceC9, queries) by decide)
    rfl (fun hcc => absurd rfl hcc.1)

theorem replCount_append (qs qs2 : List Query) (p : Str) :
    replCount (qs ++ qs2) p = replCount qs p + replCount qs2 p := by
  unfold replCount
  rw [List.filter_append, List.length_append]

theorem replCount_mapped (l : List Str) (p : Str) :
    replCount (l.map mkReplicationQuery) p = l.count p := by
  induction l with
  | nil => rfl
  | cons a l ih =>
    unfold replCount at ih ⊢
    by_cases hap : a = p
    · simp only [List.map_cons, List.filter_cons, List.count_cons]
      rw [if_pos (by simp [mkReplicationQuery, hap]), if_pos (by simp [hap])]
      simpa using ih
    · simp only [List.map_cons, List.filter_cons, List.count_cons]
      rw [if_neg (by simp [mkReplicationQuery, hap]), if_neg (by simp [hap])]
      simpa using ih

theorem replCount_add (s : Scraper) (qs : List Query) (p : Str) :
    replCount (addReplicationQueries s qs) p = replCount qs p + s.Sync.count p := by
  unfold addReplicationQueries
  rw [replCount_append, replCount_mapped]

/-- C8 counterexample: constructing the catalog twice for a configuration
with one peer leaves two replication descriptors for that peer, not
one. -/
theorem c8_counterexample :
    replCount
      (addReplicationQueries scraperPlain (addReplicationQueries scraperPlain queries))
      ("dc=example,dc=org".toList) = 2 := by decide

/-- C8 (amended): catalog construction is not guarded against repeat
invocation — each call of addReplicationQueries appends one replication
descriptor per occurrence of a peer in the configured list, so k
constructions leave k descriptors per (once-listed) peer; exactly one
descriptor per peer holds only for the single construction performed by
Start. -/
theorem c8_amended_construction_accumulates (s : Scraper) (qs : List Query) (p : Str)
    (k : Nat) :
    replCount ((fun l => addReplicationQueries s l)^[k] qs) p =
      replCount qs p + k * s.Sync.count p := by
  induction k with
  | zero => simp
  | succ n ih =>
    rw [Function.iterate_succ_apply', replCount_add, ih]
    ring

/-- C5: when delay checking is enabled and the primary cross-check of a
replication query succeeds — master dial, bind and search succeed, the
first master entry carries the attribute, its token timestamp parses, and
the server-id field exists — the point published under the (server-id,
`delay`) label is exactly the primary's epoch seconds minus the epoch
seconds cached on the same query descriptor (updated by this cycle's
local pass when it parsed). -/
theorem c5_delay_value (s : Scraper) (w : World) (i : Nat) (q : Query)
    (r : Bool × List Event × Query) (e0 : Entry) (rest : List Entry)
    (f0 : Str) (t : List Str) (gtM : Int) (sid : Str)
    (hdelay : s.LdapSyncTimeDetal = true)
    (hattr : q.searchAttr = monitorReplicationFilter)
    (hqp : queryPhase w i q = some r)
    (hmd : w.masterDialOk = true)
    (hmb : w.masterBind s.User s.Pass = true)
    (hms : w.masterSearch i = some (e0 :: rest))
    (hval : e0.GetAttributeValue monitorReplicationFilter ≠ [])
    (hsplit : splitOnHash (e0.GetAttributeValue monitorReplicationFilter) = f0 :: t)
    (hgt : parseGeneralizedTime f0 = some gtM)
    (hsid : t[1]? = some sid) :
    scrapeStep s w i q =
      StepResult.next r.1
        (r.2.1 ++
          [Event.dial true s.LdapSyncMasterAddr,
           Event.bindCall true s.User s.Pass,
           Event.masterSearchCall i r.2.2.baseDN r.2.2.searchFilter r.2.2.searchAttr,
           Event.metricSet i r.2.2.metric [sid, labelDelay]
             ((gtM : ℚ) - r.2.2.RepolicateResult)])
        r.2.2 := by
  have hattr2 : r.2.2.searchAttr = monitorReplicationFilter := by
    rw [queryPhase_searchAttr hqp, hattr]
  have hcc : crossCheck s w i r.2.2 =
      CrossResult.next
        [Event.dial true s.LdapSyncMasterAddr,
         Event.bindCall true s.User s.Pass,
         Event.masterSearchCall i r.2.2.baseDN r.2.2.searchFilter r.2.2.searchAttr,
         Event.metricSet i r.2.2.metric [sid, labelDelay]
           ((gtM : ℚ) - r.2.2.RepolicateResult)] := by
    unfold crossCheck
    simp [hattr2, hdelay, hmd, hmb, hms, hval, hsplit, hgt, hsid]
  unfold scrapeStep
  simp only [hqp, hcc]

/-- Witness for c5_delay_value: local epoch 1000, primary epoch 1010, so
the published delay point carries 1010 - 1000 = 10. -/
theorem c5_witness :
    scrapeStep scraperC5 worldC5 0 replQuery0 =
      StepResult.next resultC5.1
        (resultC5.2.1 ++
          [Event.dial true scraperC5.LdapSyncMasterAddr,
           Event.bindCall true scraperC5.User scraperC5.Pass,
           Event.masterSearchCall 0 resultC5.2.2.baseDN resultC5.2.2.searchFilter
             resultC5.2.2.searchAttr,
           Event.metricSet 0 resultC5.2.2.metric ["node1".toList, labelDelay]
             (((1010 : Int) : ℚ) - resultC5.2.2.RepolicateResult)])
        resultC5.2.2 :=
  c5_delay_value scraperC5 worldC5 0 replQuery0 resultC5 entryMasterC5 []
    ("19700101001650Z".toList) ["1".toList, "node1".toList, "1".toList] 1010
    ("node1".toList) rfl rfl (by decide) rfl rfl rfl (by decide) (by decide) (by decide)
    (by decide)

/-- C10: the primary connection used for delay checking always performs a
bind with the configured credentials — even when both are empty — while
the main per-cycle connection skips its bind for empty credentials; with
delay checking enabled, a primary that rejects the empty bind therefore
fails the whole cycle. -/
theorem c10_master_always_binds (s : Scraper) (w : World) (p : Str)
    (hu : s.User = []) (hpw : s.Pass = [])
    (hdelay : s.LdapSyncTimeDetal = true)
    (hd : w.dialOk = true)
    (hmd : w.masterDialOk = true)
    (hs0 : w.search 0 = some [])
    (hmb : w.masterBind [] [] = false) :
    ∃ tr out,
      scrape s w [mkReplicationQuery p] = some (false, tr, out) ∧
      Event.bindCall true [] [] ∈ tr ∧
      (∀ u pw, Event.bindCall false u pw ∉ tr) := by
  have hcred : ¬(s.User ≠ [] ∧ s.Pass ≠ []) := by simp [hu]
  have hmb2 : w.masterBind s.User s.Pass = false := by rw [hu, hpw]; exact hmb
  have hq : queryPhase w 0 (mkReplicationQuery p) =
      some (true,
        [Event.searchCall 0 (mkReplicationQuery p).baseDN
          (mkReplicationQuery p).searchFilter (mkReplicationQuery p).searchAttr],
        mkReplicationQuery p) := by
    simp [queryPhase, hs0, applySetData, mkReplicationQuery, setReplicationValue]
  have hcc : crossCheck s w 0 (mkReplicationQuery p) =
      CrossResult.abort
        [Event.dial true s.LdapSyncMasterAddr,
         Event.bindCall true s.User s.Pass,
         Event.errorLog bindMasterFailMsg,
         Event.errorLog queryMasterCtxMsg] := by
    unfold crossCheck
    simp [mkReplicationQuery, hdelay, hmd, hmb2]
  refine ⟨[Event.dial false s.Addr,
    Event.searchCall 0 (mkReplicationQuery p).baseDN (mkReplicationQuery p).searchFilter
      (mkReplicationQuery p).searchAttr,
    Event.dial true s.LdapSyncMasterAddr,
    Event.bindCall true s.User s.Pass,
    Event.errorLog bindMasterFailMsg,
    Event.errorLog queryMasterCtxMsg],
    [mkReplicationQuery p], ?_, ?_, ?_⟩
  · simp [scrape, hd, hcred, scrapeLoop, scrapeStep, hq, hcc]
  · rw [hu, hpw]
    simp
  · intro u pw hmem
    simp [hu, hpw] at hmem

/-- Witness for c10_master_always_binds: with empty credentials and a
primary that rejects the empty bind, the cycle fails and only the master
connection ever attempted a bind. -/
theorem c10_witness :
    ∃ tr out,
      scrape scraperC5 worldC10 [mkReplicationQuery ("dc=example,dc=org".toList)] =
        some (false, tr, out) ∧
      Event.bindCall true [] [] ∈ tr ∧
      (∀ u pw, Event.bindCall false u pw ∉ tr) :=
  c10_master_always_binds scraperC5 worldC10 ("dc=example,dc=org".toList)
    rfl rfl rfl rfl rfl rfl rfl
